import Mathlib

/-!
Verification of the traffic-aware trajectory pipeline of the CarND-Capstone
repository (ROS nodes `tl_detector` and `waypoint_updater`), as a shallow
embedding in Lean 4.

Modelling conventions:
* Positions are 3-dimensional rational points.  The source computes Euclidean
  distances with `math.sqrt`, which is not rational-valued; every definition
  that uses a distance therefore takes the distance function
  `d : Point → Point → ℚ` as an explicit parameter, standing for the source's
  `euclidean_distance` / `distance`.  Theorems quantify over `d`; concrete
  witnesses instantiate `d` with the exact Euclidean distance of the chosen
  (colinear, axis-aligned) points, on which it is rational.
* Python exceptions (ZeroDivisionError, IndexError) are modelled by `Option`:
  a function that can raise returns `none` in exactly the raising executions.
* In-place mutation of waypoint objects (`set_waypoint_velocity`) is modelled
  by threading the waypoint list through the computation; the list returned by
  `generate_next_waypoints` is the state of `self.base_waypoints` *after* the
  call, and the trajectory is the list of indices of the appended (aliased)
  waypoint objects.
-/

/-- A 3-D position (`geometry_msgs` position with x, y, z coordinates). -/
structure Point where
  x : ℚ
  y : ℚ
  z : ℚ
deriving DecidableEq, Repr

/-- A base-path waypoint: position plus stored target speed
(`waypoint.twist.twist.linear.x`). -/
structure Waypoint where
  pos : Point
  vel : ℚ
deriving DecidableEq, Repr

def dummyPoint : Point := ⟨0, 0, 0⟩

def dummyWaypoint : Waypoint := ⟨dummyPoint, 0⟩

/-! ## tl_detector: signal states and the debouncer (`TLDetector.image_cb`) -/

/-- Raw traffic-light states from `styx_msgs/TrafficLight`. -/
inductive TLState where
  | red
  | yellow
  | green
  | unknown
deriving DecidableEq, Repr

/-- `STATE_COUNT_THRESHOLD = 3` in tl_detector.py. -/
def STATE_COUNT_THRESHOLD : ℕ := 3

/-- The debouncer state kept by `TLDetector`: `self.state`, `self.last_state`,
`self.last_wp`, `self.state_count`. -/
structure DetectorState where
  state : TLState
  last_state : TLState
  last_wp : ℤ
  state_count : ℕ
deriving DecidableEq, Repr

/-- Initial debouncer state set in `TLDetector.__init__`:
state = UNKNOWN, last_state = UNKNOWN, last_wp = -1, state_count = 0. -/
def initialDetectorState : DetectorState :=
  { state := TLState.unknown, last_state := TLState.unknown,
    last_wp := -1, state_count := 0 }

/-- One tick of the debouncer in `TLDetector.image_cb`, given the candidate
waypoint index `light_wp` and raw state `st` from `process_traffic_lights`.
Returns the new state and the value published to `/traffic_waypoint`
(`none` when the tick publishes nothing, which happens exactly in the
state-change branch of the source).  The trailing `self.state_count += 1`
of the source is folded into each branch (the reset branch stores 0 and is
then incremented, hence `state_count := 1`). -/
def image_cb_step (s : DetectorState) (light_wp : ℤ) (st : TLState) :
    DetectorState × Option ℤ :=
  if s.state ≠ st then
    ({ s with state_count := 1, state := st }, none)
  else if STATE_COUNT_THRESHOLD ≤ s.state_count then
    let lw := if st = TLState.red then light_wp else -1
    ({ s with last_state := s.state, last_wp := lw,
              state_count := s.state_count + 1 }, some lw)
  else
    ({ s with state_count := s.state_count + 1 }, some s.last_wp)

/-- Run the debouncer over a list of (candidate index, raw state) ticks,
collecting the published outputs in order. -/
def runDebouncer (s : DetectorState) : List (ℤ × TLState) → DetectorState × List (Option ℤ)
  | [] => (s, [])
  | (wp, st) :: rest =>
    let r := image_cb_step s wp st
    let rr := runDebouncer r.1 rest
    (rr.1, r.2 :: rr.2)

/-- C1, counterexample: starting from the initial state, after exactly
`STATE_COUNT_THRESHOLD = 3` consecutive identical RED observations (candidate
index 5) the published output has not changed to 5 — the outputs are
`[none, some (-1), some (-1)]`; the commit to 5 only happens on the fourth
consecutive identical observation. -/
theorem C1_counterexample :
    (runDebouncer initialDetectorState
      [(5, TLState.red), (5, TLState.red), (5, TLState.red)]).2
      = [none, some (-1), some (-1)] ∧
    (runDebouncer initialDetectorState
      [(5, TLState.red), (5, TLState.red), (5, TLState.red), (5, TLState.red)]).2
      = [none, some (-1), some (-1), some 5] := by
  decide

/-- C1, amended: (i) a tick publishes a value different from the previous
`last_wp` only in the commit branch — the raw state matches the tracked state,
the counter has reached the threshold, and the value is the candidate index if
the state is RED and -1 otherwise; (ii) a single outlier frame amid a stable
run never causes a published value different from the committed `last_wp`
(the outlier tick and the following recovery tick publish nothing, the next
tick republishes `last_wp`); (iii) after a raw-state change, the first commit
happens on the (threshold+1)-th consecutive identical observation. -/
theorem C1_amended :
    (∀ (s : DetectorState) (wp v : ℤ) (st : TLState),
      (image_cb_step s wp st).2 = some v → v ≠ s.last_wp →
        st = s.state ∧ STATE_COUNT_THRESHOLD ≤ s.state_count ∧
        v = (if st = TLState.red then wp else -1)) ∧
    (∀ (s : DetectorState) (y : TLState) (w1 w2 w3 : ℤ), y ≠ s.state →
      (runDebouncer s [(w1, y), (w2, s.state), (w3, s.state)]).2
        = [none, none, some s.last_wp]) ∧
    (∀ (s : DetectorState) (st : TLState) (w1 w2 w3 w4 : ℤ), st ≠ s.state →
      (runDebouncer s [(w1, st), (w2, st), (w3, st), (w4, st)]).2
        = [none, some s.last_wp, some s.last_wp,
           some (if st = TLState.red then w4 else -1)]) := by
  refine ⟨?_, ?_, ?_⟩
  · intro s wp v st hpub hne
    unfold image_cb_step at hpub
    by_cases h1 : s.state ≠ st
    · simp [h1] at hpub
    · push_neg at h1
      by_cases h2 : STATE_COUNT_THRESHOLD ≤ s.state_count
      · simp [h1, h2] at hpub
        exact ⟨h1.symm, h2, hpub.symm⟩
      · simp [h1, h2] at hpub
        exact absurd hpub.symm hne
  · intro s y w1 w2 w3 hy
    simp [runDebouncer, image_cb_step, Ne.symm hy, hy,
      STATE_COUNT_THRESHOLD]
  · intro s st w1 w2 w3 w4 hst
    simp [runDebouncer, image_cb_step, Ne.symm hst, STATE_COUNT_THRESHOLD]

/-- C1, witness for the amended theorem: clause (iii) applied at the initial
state with four RED observations. -/
theorem C1_witness :
    (runDebouncer initialDetectorState
      [(7, TLState.red), (7, TLState.red), (7, TLState.red), (9, TLState.red)]).2
      = [none, some (-1), some (-1), some 9] := by
  have h := C1_amended.2.2 initialDetectorState TLState.red 7 7 7 9 (by decide)
  simpa using h

/-- C7, counterexample: on a tick where the raw state changes (here RED
arriving while the tracked state is UNKNOWN), the debouncer publishes
nothing at all, contradicting the claim that the previous `committedPathIndex`
is emitted on every tick. -/
theorem C7_counterexample :
    (image_cb_step initialDetectorState 5 TLState.red).2 = none := by
  decide

/-- C7, amended: on ticks where the raw state matches the tracked state and
the counter is below the threshold, the previous `last_wp` is published
unchanged (and the stored `last_wp` is unchanged); on ticks where the raw
state changes, nothing is published. -/
theorem C7_amended (s : DetectorState) (wp : ℤ) (st : TLState) :
    (st = s.state → s.state_count < STATE_COUNT_THRESHOLD →
      (image_cb_step s wp st).2 = some s.last_wp ∧
      (image_cb_step s wp st).1.last_wp = s.last_wp) ∧
    (st ≠ s.state → (image_cb_step s wp st).2 = none) := by
  constructor
  · intro hst hcnt
    have hlt : ¬ STATE_COUNT_THRESHOLD ≤ s.state_count := not_le.mpr hcnt
    simp [image_cb_step, hst, hlt]
  · intro hst
    simp [image_cb_step, Ne.symm hst]

/-- C7, witness for the amended theorem: applied at a concrete state with a
matching observation below threshold, and at a changing observation. -/
theorem C7_witness :
    (image_cb_step initialDetectorState 5 TLState.unknown).2 = some (-1) ∧
    (image_cb_step initialDetectorState 5 TLState.green).2 = none := by
  have h1 := (C7_amended initialDetectorState 5 TLState.unknown).1
    (by decide) (by decide)
  have h2 := (C7_amended initialDetectorState 5 TLState.green).2 (by decide)
  exact ⟨h1.1, h2⟩

/-! ## tl_detector: closest waypoint and the stop-line correlator
(`TLDetector.get_closest_waypoint`, `TLDetector.process_traffic_lights`) -/

/-- Comparison against a running best distance.  `none` models the
uninitialised best (`sys.float_info.max` / `float('inf')` in the source,
against which every finite distance compares smaller). -/
def ltO (q : ℚ) : Option ℚ → Bool
  | none => true
  | some b => decide (q < b)

/-- Comparison of a returned best distance against a (small) threshold.
`none` models `sys.float_info.max`, which exceeds every threshold used. -/
def dltO (o : Option ℚ) (c : ℚ) : Bool :=
  match o with
  | none => false
  | some b => decide (b < c)

/-- Loop of `TLDetector.get_closest_waypoint`: scan the waypoints in order
tracking the best (index, distance); on the first non-improving point the
loop breaks and returns the current best. -/
def tl_closest_go (d : Point → Point → ℚ) (p : Point) :
    List Point → ℕ → ℕ → Option ℚ → ℕ × Option ℚ
  | [], _, closest, best => (closest, best)
  | w :: rest, idx, closest, best =>
    let dist := d p w
    if ltO dist best then tl_closest_go d p rest (idx + 1) idx (some dist)
    else (closest, best)

/-- `TLDetector.get_closest_waypoint`: returns the pair (closest index,
best distance); `best = none` encodes the untouched `sys.float_info.max`. -/
def tl_get_closest_waypoint (d : Point → Point → ℚ) (p : Point)
    (wps : List Point) : ℕ × Option ℚ :=
  tl_closest_go d p wps 0 0 none

/-- A live signal observation (`self.lights` element): position and raw
ground-truth state. -/
structure TLLight where
  pos : Point
  lstate : TLState
deriving DecidableEq, Repr

/-- Inner loop of `process_traffic_lights` over `self.lights` for one
accepted stop line: `line_waypoint` and `line_waypooint_next` are the path
points at indices `wp` and `wp+2`; `best` is reset per accepted line, while
the running `light` (paired with its `light_wp`) persists across lines. -/
def lights_scan (d : Point → Point → ℚ) (line_waypoint line_waypoint_next : Point)
    (wp : ℕ) : List TLLight → Option ℚ → Option (TLLight × ℕ) → Option (TLLight × ℕ)
  | [], _, lightAcc => lightAcc
  | pl :: rest, best, lightAcc =>
    let dist_light := d pl.pos line_waypoint
    if dist_light < 50 ∧ ltO dist_light best then
      let dist_light_next := d pl.pos line_waypoint_next
      if dist_light_next < dist_light then
        lights_scan d line_waypoint line_waypoint_next wp rest
          (some dist_light) (some (pl, wp))
      else
        lights_scan d line_waypoint line_waypoint_next wp rest best lightAcc
    else
      lights_scan d line_waypoint line_waypoint_next wp rest best lightAcc

/-- The stop-line point built in the loop: (x, y) from the configuration,
z copied from the current pose. -/
def sl_point (sl : ℚ × ℚ) (posePos : Point) : Point := ⟨sl.1, sl.2, posePos.z⟩

/-- Outer loop of `process_traffic_lights` over `stop_line_positions`,
carrying the running `closest` (initially 200) and the running selected
light.  Returns `none` when a waypoint lookup (`waypoints[wp]` or
`waypoints[wp+2]`) goes out of bounds, which in the source is an uncaught
IndexError. -/
def stop_lines_scan (d : Point → Point → ℚ) (posePos : Point)
    (wps : List Point) (lights : List TLLight) :
    List (ℚ × ℚ) → ℕ → Option (TLLight × ℕ) → Option (ℕ × Option (TLLight × ℕ))
  | [], closest, light => some (closest, light)
  | sl :: rest, closest, light =>
    let pos := sl_point sl posePos
    if d pos posePos > 200 then
      stop_lines_scan d posePos wps lights rest closest light
    else
      let wd := tl_get_closest_waypoint d pos wps
      if dltO wd.2 1 ∧ wd.1 < 150 ∧ wd.1 < closest then
        match wps.get? wd.1, wps.get? (wd.1 + 2) with
        | some line_waypoint, some line_waypoint_next =>
          stop_lines_scan d posePos wps lights rest wd.1
            (lights_scan d line_waypoint line_waypoint_next wd.1 lights none light)
        | _, _ => none
      else
        stop_lines_scan d posePos wps lights rest closest light

/-- `TLDetector.process_traffic_lights` under the availability guard
(`self.pose`, `self.waypoints` present): the classifier call
(`get_light_state`) is the external black box `classify`.  Returns
`some (light_wp, state)` when a light is selected, `some (-1, UNKNOWN)`
when none is, and `none` when the source would raise an IndexError. -/
def process_traffic_lights (d : Point → Point → ℚ)
    (classify : TLLight → TLState) (posePos : Point) (wps : List Point)
    (lights : List TLLight) (stop_lines : List (ℚ × ℚ)) :
    Option (ℤ × TLState) :=
  match stop_lines_scan d posePos wps lights stop_lines 200 none with
  | none => none
  | some (_, some lwp) => some ((lwp.2 : ℤ), classify lwp.1)
  | some (_, none) => some (-1, TLState.unknown)

/-- The per-line guard of the outer loop (not pruned by the 200-unit
radius, alignment distance below 1, index below the 150 forward horizon).
This is only the stateless part of acceptance: the source additionally
requires `wp < closest` against the running smallest index
(tl_detector.py line 172); the lines actually accepted by the fold are
computed by `accepted_lines` below. -/
def sl_guard (d : Point → Point → ℚ) (posePos : Point) (wps : List Point)
    (sl : ℚ × ℚ) : Prop :=
  ¬ (d (sl_point sl posePos) posePos > 200) ∧
  dltO (tl_get_closest_waypoint d (sl_point sl posePos) wps).2 1 = true ∧
  (tl_get_closest_waypoint d (sl_point sl posePos) wps).1 < 150

/-- The stop lines actually accepted by `process_traffic_lights` when
scanning `stop_lines` with running smallest index `closest` (initially
200): a line is accepted iff it survives the 200-unit prune and satisfies
`dist < 1 and wp < 150 and wp < closest`, and acceptance updates `closest`
to its `wp`.  Acceptance does not depend on the lights: the source updates
`closest` in the accepted branch regardless of what the inner loop finds,
so this function computes exactly the set of lines whose inner light scan
runs. -/
def accepted_lines (d : Point → Point → ℚ) (posePos : Point)
    (wps : List Point) : List (ℚ × ℚ) → ℕ → List (ℚ × ℚ)
  | [], _ => []
  | sl :: rest, closest =>
    if d (sl_point sl posePos) posePos > 200 then
      accepted_lines d posePos wps rest closest
    else if dltO (tl_get_closest_waypoint d (sl_point sl posePos) wps).2 1
        ∧ (tl_get_closest_waypoint d (sl_point sl posePos) wps).1 < 150
        ∧ (tl_get_closest_waypoint d (sl_point sl posePos) wps).1 < closest then
      sl :: accepted_lines d posePos wps rest
        (tl_get_closest_waypoint d (sl_point sl posePos) wps).1
    else
      accepted_lines d posePos wps rest closest

theorem accepted_lines_cons_prune (d : Point → Point → ℚ) (posePos : Point)
    (wps : List Point) (sl : ℚ × ℚ) (rest : List (ℚ × ℚ)) (closest : ℕ)
    (h : d (sl_point sl posePos) posePos > 200) :
    accepted_lines d posePos wps (sl :: rest) closest
      = accepted_lines d posePos wps rest closest := by
  simp only [accepted_lines]
  rw [if_pos h]

theorem accepted_lines_cons_accept (d : Point → Point → ℚ) (posePos : Point)
    (wps : List Point) (sl : ℚ × ℚ) (rest : List (ℚ × ℚ)) (closest : ℕ)
    (hp : ¬ d (sl_point sl posePos) posePos > 200)
    (ha : dltO (tl_get_closest_waypoint d (sl_point sl posePos) wps).2 1
      ∧ (tl_get_closest_waypoint d (sl_point sl posePos) wps).1 < 150
      ∧ (tl_get_closest_waypoint d (sl_point sl posePos) wps).1 < closest) :
    accepted_lines d posePos wps (sl :: rest) closest
      = sl :: accepted_lines d posePos wps rest
          (tl_get_closest_waypoint d (sl_point sl posePos) wps).1 := by
  simp only [accepted_lines]
  rw [if_neg hp, if_pos ha]

theorem accepted_lines_cons_reject (d : Point → Point → ℚ) (posePos : Point)
    (wps : List Point) (sl : ℚ × ℚ) (rest : List (ℚ × ℚ)) (closest : ℕ)
    (hp : ¬ d (sl_point sl posePos) posePos > 200)
    (ha : ¬ (dltO (tl_get_closest_waypoint d (sl_point sl posePos) wps).2 1
      ∧ (tl_get_closest_waypoint d (sl_point sl posePos) wps).1 < 150
      ∧ (tl_get_closest_waypoint d (sl_point sl posePos) wps).1 < closest)) :
    accepted_lines d posePos wps (sl :: rest) closest
      = accepted_lines d posePos wps rest closest := by
  simp only [accepted_lines]
  rw [if_neg hp, if_neg ha]

/-- The 1-D instantiation of the abstract distance: on points with equal y
and equal z coordinates this is exactly the source's Euclidean distance,
since sqrt((x1-x2)^2 + 0 + 0) = |x1 - x2|.  Used by concrete witnesses and
counterexamples, all of whose points are colinear on the x-axis. -/
def dLin (p q : Point) : ℚ := if p.x ≤ q.x then q.x - p.x else p.x - q.x

/-- If no light in the remaining list is within 50 units of the accepted
line waypoint, the inner scan leaves the running selected light unchanged. -/
theorem lights_scan_no_light (d : Point → Point → ℚ) (lwp lwpn : Point) (wp : ℕ) :
    ∀ (ls : List TLLight) (best : Option ℚ) (acc : Option (TLLight × ℕ)),
      (∀ l ∈ ls, ¬ (d l.pos lwp < 50)) →
      lights_scan d lwp lwpn wp ls best acc = acc := by
  intro ls
  induction ls with
  | nil => intro best acc _; rfl
  | cons pl rest ih =>
    intro best acc hfar
    have hhead : ¬ (d pl.pos lwp < 50) := hfar pl (List.mem_cons_self pl rest)
    have hrest : ∀ l ∈ rest, ¬ (d l.pos lwp < 50) :=
      fun l hl => hfar l (List.mem_cons_of_mem pl hl)
    unfold lights_scan
    rw [if_neg (fun h => hhead h.1)]
    exact ih best acc hrest

/-- If, for every stop line the scan accepts, the wp+2 lookup is in bounds
and no light lies within 50 units of the stop line's path point, then the
outer scan keeps the selected light empty. -/
theorem stop_lines_scan_no_light (d : Point → Point → ℚ) (posePos : Point)
    (wps : List Point) (lights : List TLLight) :
    ∀ (sls : List (ℚ × ℚ)) (closest : ℕ),
      (∀ sl ∈ accepted_lines d posePos wps sls closest,
        (tl_get_closest_waypoint d (sl_point sl posePos) wps).1 + 2 < wps.length) →
      (∀ sl ∈ accepted_lines d posePos wps sls closest, ∀ l ∈ lights,
        ¬ (d l.pos (wps.getD (tl_get_closest_waypoint d (sl_point sl posePos) wps).1
            dummyPoint) < 50)) →
      ∃ c, stop_lines_scan d posePos wps lights sls closest none = some (c, none) := by
  intro sls
  induction sls with
  | nil => intro closest _ _; exact ⟨closest, rfl⟩
  | cons sl rest ih =>
    intro closest hlen hfar
    unfold stop_lines_scan
    by_cases hprune : d (sl_point sl posePos) posePos > 200
    · rw [if_pos hprune]
      rw [accepted_lines_cons_prune d posePos wps sl rest closest hprune]
        at hlen hfar
      exact ih closest hlen hfar
    · rw [if_neg hprune]
      by_cases hacc : dltO (tl_get_closest_waypoint d (sl_point sl posePos) wps).2 1
          ∧ (tl_get_closest_waypoint d (sl_point sl posePos) wps).1 < 150
          ∧ (tl_get_closest_waypoint d (sl_point sl posePos) wps).1 < closest
      · rw [if_pos hacc]
        rw [accepted_lines_cons_accept d posePos wps sl rest closest hprune hacc]
          at hlen hfar
        have hmem : sl ∈ sl :: accepted_lines d posePos wps rest
            (tl_get_closest_waypoint d (sl_point sl posePos) wps).1 :=
          List.mem_cons_self _ _
        have h2 : (tl_get_closest_waypoint d (sl_point sl posePos) wps).1 + 2
            < wps.length := hlen sl hmem
        have h1 : (tl_get_closest_waypoint d (sl_point sl posePos) wps).1
            < wps.length := by omega
        rw [List.get?_eq_get h1, List.get?_eq_get h2]
        have hget : wps.getD (tl_get_closest_waypoint d (sl_point sl posePos) wps).1
            dummyPoint = wps.get ⟨_, h1⟩ := by
          rw [List.getD_eq_getElem?_getD, List.getElem?_eq_getElem h1]; rfl
        have hno : lights_scan d (wps.get ⟨_, h1⟩) (wps.get ⟨_, h2⟩)
            (tl_get_closest_waypoint d (sl_point sl posePos) wps).1 lights none none
            = none := by
          apply lights_scan_no_light
          intro l hl
          have := hfar sl hmem l hl
          rwa [hget] at this
        dsimp only
        rw [hno]
        exact ih (tl_get_closest_waypoint d (sl_point sl posePos) wps).1
          (fun s hs => hlen s (List.mem_cons_of_mem sl hs))
          (fun s hs => hfar s (List.mem_cons_of_mem sl hs))
      · rw [if_neg hacc]
        rw [accepted_lines_cons_reject d posePos wps sl rest closest hprune hacc]
          at hlen hfar
        exact ih closest hlen hfar

/-- C9: if no live signal observation lies within the 50-unit match radius
of the path point of any stop line the correlator actually accepts
(`accepted_lines`, with the initial running index 200 — exactly the lines
whose inner light scan runs, including the `wp < closest` tie-break), then
the correlator returns "no stop" (index -1 with state UNKNOWN) — even when
accepted stop lines exist.  The in-bounds hypothesis `hlen` excludes the
separate wp+2 IndexError (settled by C10). -/
theorem C9_no_signal_no_stop (d : Point → Point → ℚ) (classify : TLLight → TLState)
    (posePos : Point) (wps : List Point) (lights : List TLLight)
    (stop_lines : List (ℚ × ℚ))
    (hlen : ∀ sl ∈ accepted_lines d posePos wps stop_lines 200,
      (tl_get_closest_waypoint d (sl_point sl posePos) wps).1 + 2 < wps.length)
    (hfar : ∀ sl ∈ accepted_lines d posePos wps stop_lines 200, ∀ l ∈ lights,
      ¬ (d l.pos (wps.getD (tl_get_closest_waypoint d (sl_point sl posePos) wps).1
          dummyPoint) < 50)) :
    process_traffic_lights d classify posePos wps lights stop_lines
      = some (-1, TLState.unknown) := by
  obtain ⟨c, hc⟩ := stop_lines_scan_no_light d posePos wps lights stop_lines 200 hlen hfar
  unfold process_traffic_lights
  rw [hc]

/-- C9, witness: five colinear waypoints at x = 0..4, the vehicle at the
origin, a stop line exactly on the waypoint at x = 2 (accepted: alignment
distance 0 < 1, wp = 2 < 150 < 200), and one live light at x = 100 — at
distance 98 ≥ 50 from the accepted line's path point.  Both hypotheses are
exercised non-vacuously on the accepted line and the light, and the
correlator returns "no stop" despite the geometrically aligned stop line. -/
theorem C9_witness :
    process_traffic_lights dLin (fun _ => TLState.unknown) ⟨0, 0, 0⟩
      [⟨0, 0, 0⟩, ⟨1, 0, 0⟩, ⟨2, 0, 0⟩, ⟨3, 0, 0⟩, ⟨4, 0, 0⟩]
      [⟨⟨100, 0, 0⟩, TLState.red⟩] [(2, 0)]
      = some (-1, TLState.unknown) := by
  have hacc : accepted_lines dLin ⟨0, 0, 0⟩
      [⟨0, 0, 0⟩, ⟨1, 0, 0⟩, ⟨2, 0, 0⟩, ⟨3, 0, 0⟩, ⟨4, 0, 0⟩] [(2, 0)] 200
      = [(2, 0)] := by
    norm_num [accepted_lines, sl_point, dLin, tl_get_closest_waypoint,
      tl_closest_go, ltO, dltO]
  have hwp : (tl_get_closest_waypoint dLin (sl_point (2, 0) ⟨0, 0, 0⟩)
      [⟨0, 0, 0⟩, ⟨1, 0, 0⟩, ⟨2, 0, 0⟩, ⟨3, 0, 0⟩, ⟨4, 0, 0⟩]).1 = 2 := by
    norm_num [sl_point, dLin, tl_get_closest_waypoint, tl_closest_go, ltO]
  apply C9_no_signal_no_stop
  · intro sl hsl
    rw [hacc] at hsl
    have hsl2 : sl = (2, 0) := List.mem_singleton.mp hsl
    subst hsl2
    rw [hwp]
    norm_num
  · intro sl hsl l hl
    rw [hacc] at hsl
    have hsl2 : sl = (2, 0) := List.mem_singleton.mp hsl
    subst hsl2
    have hl2 : l = ⟨⟨100, 0, 0⟩, TLState.red⟩ := List.mem_singleton.mp hl
    subst hl2
    rw [hwp]
    norm_num [dLin, List.getD]

/-- C10, counterexample: a 3-point colinear path with a stop line exactly on
the last waypoint.  The stop line passes the acceptance guard (alignment
distance 0 < 1, index 2 < 150), but wp + 2 = 4 is out of bounds for the
3-element waypoint list, so the source raises an IndexError (modelled as
`none`).  `dLin` is the exact Euclidean distance for these colinear points. -/
theorem C10_counterexample :
    sl_guard dLin ⟨0, 0, 0⟩ [⟨0, 0, 0⟩, ⟨1, 0, 0⟩, ⟨2, 0, 0⟩] (2, 0) ∧
    process_traffic_lights dLin (fun _ => TLState.unknown) ⟨0, 0, 0⟩
      [⟨0, 0, 0⟩, ⟨1, 0, 0⟩, ⟨2, 0, 0⟩] [] [(2, 0)] = none := by
  constructor
  · refine ⟨?_, ?_, ?_⟩ <;>
      norm_num [sl_guard, sl_point, dLin, tl_get_closest_waypoint, tl_closest_go,
        ltO, dltO]
  · norm_num [process_traffic_lights, stop_lines_scan, sl_point, dLin,
      tl_get_closest_waypoint, tl_closest_go, ltO, dltO]

/-- The outer scan never aborts when the waypoint list has at least 152
elements: any accepted index is below 150, so wp and wp + 2 are in bounds. -/
theorem stop_lines_scan_isSome (d : Point → Point → ℚ) (posePos : Point)
    (wps : List Point) (lights : List TLLight) (hlen : 152 ≤ wps.length) :
    ∀ (sls : List (ℚ × ℚ)) (closest : ℕ) (light : Option (TLLight × ℕ)),
      ∃ r, stop_lines_scan d posePos wps lights sls closest light = some r := by
  intro sls
  induction sls with
  | nil => intro closest light; exact ⟨(closest, light), rfl⟩
  | cons sl rest ih =>
    intro closest light
    unfold stop_lines_scan
    by_cases hprune : d (sl_point sl posePos) posePos > 200
    · rw [if_pos hprune]; exact ih closest light
    · rw [if_neg hprune]
      by_cases hacc : dltO (tl_get_closest_waypoint d (sl_point sl posePos) wps).2 1
          ∧ (tl_get_closest_waypoint d (sl_point sl posePos) wps).1 < 150
          ∧ (tl_get_closest_waypoint d (sl_point sl posePos) wps).1 < closest
      · rw [if_pos hacc]
        have h2 : (tl_get_closest_waypoint d (sl_point sl posePos) wps).1 + 2
            < wps.length := by
          have := hacc.2.1
          omega
        have h1 : (tl_get_closest_waypoint d (sl_point sl posePos) wps).1
            < wps.length := by omega
        rw [List.get?_eq_get h1, List.get?_eq_get h2]
        dsimp only
        exact ih _ _
      · rw [if_neg hacc]; exact ih closest light

/-- C10, amended: the wp+2 lookup of the forward-facing heuristic is in
bounds for every accepted stop line only under the additional assumption that
the waypoint list has at least 152 elements (the 150 forward-horizon bound
plus 2); the acceptance guards alone do not bound wp + 2 by the list length,
and with a shorter list (e.g. the 25-point `/final_waypoints` message that
the node also routes into `self.waypoints`) the lookup goes out of bounds.
Under that assumption `process_traffic_lights` never raises. -/
theorem C10_amended (d : Point → Point → ℚ) (classify : TLLight → TLState)
    (posePos : Point) (wps : List Point) (lights : List TLLight)
    (stop_lines : List (ℚ × ℚ)) (hlen : 152 ≤ wps.length) :
    ∃ r, process_traffic_lights d classify posePos wps lights stop_lines = some r := by
  obtain ⟨r, hr⟩ := stop_lines_scan_isSome d posePos wps lights hlen stop_lines 200 none
  unfold process_traffic_lights
  rw [hr]
  match r with
  | (c, some lwp) => exact ⟨_, rfl⟩
  | (c, none) => exact ⟨_, rfl⟩

/-- C10, witness for the amended theorem: a 152-point waypoint list with no
stop lines; the process returns a value (no IndexError). -/
theorem C10_witness :
    ∃ r, process_traffic_lights dLin (fun _ => TLState.unknown) ⟨0, 0, 0⟩
      (List.replicate 152 (⟨0, 0, 0⟩ : Point)) [] [] = some r := by
  exact C10_amended dLin (fun _ => TLState.unknown) ⟨0, 0, 0⟩
    (List.replicate 152 (⟨0, 0, 0⟩ : Point)) [] [] (by simp)

/-! ## waypoint_updater: geometry and the path locator
(`WaypointUpdater.__is_behind`, `WaypointUpdater.__get_closest_waypoint`) -/

/-- The vehicle pose used by the waypoint updater: position plus orientation.
The source extracts the yaw angle from the quaternion with
`euler_from_quaternion` and only ever uses `cos(yaw)` and `sin(yaw)`; the
embedding carries those two values directly. -/
structure CarPose where
  x : ℚ
  y : ℚ
  z : ℚ
  cosYaw : ℚ
  sinYaw : ℚ
deriving DecidableEq, Repr

/-- The position component of a pose. -/
def CarPose.pt (p : CarPose) : Point := ⟨p.x, p.y, p.z⟩

/-- `WaypointUpdater.__is_behind`: shift the target into the vehicle frame
and rotate by -yaw; the point is behind iff the rotated x-component is not
positive.  The source computes
`x = shift_x * cos(0-yaw) - shift_y * sin(0-yaw)`; with
`cos(0-yaw) = cosYaw` and `sin(0-yaw) = -sinYaw` this is the expression
below. -/
def is_behind (pose : CarPose) (target : Point) : Bool :=
  let shift_x := target.x - pose.x
  let shift_y := target.y - pose.y
  let x := shift_x * pose.cosYaw - shift_y * (-pose.sinYaw)
  if x > 0 then false else true

/-- Incremental-mode loop of `__get_closest_waypoint` (a prior index
exists): walk forward from `last_waypoint` wrapping modulo the path length,
tracking the best (index, distance); the loop breaks and returns the current
best at the first non-improving point.  `fuel` counts the remaining
iterations of `range(num_waypoints)`; `best = none` encodes the initial
`float('inf')`. -/
def incGo (d : Point → Point → ℚ) (p : Point) (base : List Point) (lw : ℕ) :
    ℕ → ℕ → ℕ → Option ℚ → ℕ
  | 0, _, bIdx, _ => bIdx
  | fuel + 1, i, bIdx, best =>
    let ti := (i + lw) % base.length
    let td := d (base.getD ti dummyPoint) p
    if ltO td best then incGo d p base lw fuel (i + 1) ti (some td) else bIdx

/-- Incremental mode of `__get_closest_waypoint`, seeded by the previous
index `lw` (`self.last_waypoint`). -/
def incrementalSearch (d : Point → Point → ℚ) (p : Point) (base : List Point)
    (lw : ℕ) : ℕ :=
  incGo d p base lw base.length 0 0 none

/-- Full-scan loop of `__get_closest_waypoint` (no prior index): enumerate
all waypoints, tracking the best (index, distance); no early break. -/
def fullGo (d : Point → Point → ℚ) (p : Point) :
    List Point → ℕ → ℕ → Option ℚ → ℕ
  | [], _, bIdx, _ => bIdx
  | w :: rest, i, bIdx, best =>
    let td := d w p
    if ltO td best then fullGo d p rest (i + 1) i (some td)
    else fullGo d p rest (i + 1) bIdx best

/-- Full-scan mode of `__get_closest_waypoint`. -/
def fullSearch (d : Point → Point → ℚ) (p : Point) (base : List Point) : ℕ :=
  fullGo d p base 0 0 none

/-- The search index of `__get_closest_waypoint` before the is-behind
correction: incremental when a previous index exists, full scan otherwise. -/
def searchIndex (d : Point → Point → ℚ) (pose : CarPose) (base : List Point)
    (last_waypoint : Option ℕ) : ℕ :=
  match last_waypoint with
  | some lw => incrementalSearch d pose.pt base lw
  | none => fullSearch d pose.pt base

/-- `WaypointUpdater.__get_closest_waypoint`: search, then advance the index
by one if the found waypoint is behind the vehicle.  Returns `none` when the
found index has no waypoint (empty path), where the source's
`__is_behind(pose, None)` would raise. -/
def get_closest_waypoint (d : Point → Point → ℚ) (pose : CarPose)
    (base : List Point) (last_waypoint : Option ℕ) : Option ℕ :=
  let ci := searchIndex d pose base last_waypoint
  match base.get? ci with
  | none => none
  | some w => some (if is_behind pose w then ci + 1 else ci)

/-- C3, counterexample: a two-point path entirely behind the vehicle
(vehicle at the origin facing the positive x-axis, waypoints at x = -1 and
x = -2).  The full scan finds index 0; its point is behind, so the locator
returns index 1 — but the point at index 1 is also behind the vehicle, so
the returned index does designate a path point behind the vehicle.  `dLin`
is the exact Euclidean distance for these colinear points. -/
theorem C3_counterexample :
    get_closest_waypoint dLin ⟨0, 0, 0, 1, 0⟩ [⟨-1, 0, 0⟩, ⟨-2, 0, 0⟩] none
      = some 1 ∧
    is_behind ⟨0, 0, 0, 1, 0⟩ ⟨-2, 0, 0⟩ = true := by
  constructor
  · norm_num [get_closest_waypoint, searchIndex, fullSearch, fullGo, ltO,
      dLin, CarPose.pt, is_behind]
  · norm_num [is_behind]

/-- C3, amended: the locator advances the found index by one exactly when
the found closest point is behind the vehicle; the returned index designates
a point that is not behind the vehicle *provided* that, whenever the closest
point is behind, the next index is still in range and its point is ahead.
Without that geometric precondition the corrected index can itself designate
a behind point (see the counterexample). -/
theorem C3_amended (d : Point → Point → ℚ) (pose : CarPose)
    (base : List Point) (last_waypoint : Option ℕ) (w : Point)
    (hw : base.get? (searchIndex d pose base last_waypoint) = some w)
    (hcorr : is_behind pose w = true →
      ∃ w2, base.get? (searchIndex d pose base last_waypoint + 1) = some w2 ∧
        is_behind pose w2 = false) :
    ∃ j w', get_closest_waypoint d pose base last_waypoint = some j ∧
      base.get? j = some w' ∧ is_behind pose w' = false := by
  have hw' : base[searchIndex d pose base last_waypoint]? = some w := by
    rw [← List.get?_eq_getElem?]; exact hw
  by_cases hb : is_behind pose w = true
  · obtain ⟨w2, hw2, hw2f⟩ := hcorr hb
    refine ⟨searchIndex d pose base last_waypoint + 1, w2, ?_, hw2, hw2f⟩
    simp [get_closest_waypoint, hw', hb]
  · have hb' : is_behind pose w = false := by
      cases h : is_behind pose w
      · rfl
      · exact absurd h hb
    refine ⟨searchIndex d pose base last_waypoint, w, ?_, hw, hb'⟩
    simp [get_closest_waypoint, hw', hb']

/-- C3, witness for the amended theorem: a single waypoint ahead of the
vehicle; the locator returns index 0, whose point is not behind. -/
theorem C3_witness :
    ∃ j w', get_closest_waypoint dLin ⟨0, 0, 0, 1, 0⟩ [⟨1, 0, 0⟩] none
      = some j ∧ [(⟨1, 0, 0⟩ : Point)].get? j = some w' ∧
      is_behind ⟨0, 0, 0, 1, 0⟩ w' = false := by
  apply C3_amended dLin ⟨0, 0, 0, 1, 0⟩ [⟨1, 0, 0⟩] none ⟨1, 0, 0⟩
  · norm_num [searchIndex, fullSearch, fullGo, ltO, dLin, CarPose.pt]
  · intro h
    have : is_behind ⟨0, 0, 0, 1, 0⟩ ⟨1, 0, 0⟩ = false := by norm_num [is_behind]
    rw [this] at h
    exact absurd h (by simp)

/-! ## C8: equivalence of the incremental walk and the full scan under the
monotonic-approach precondition -/

/-- Distance from the vehicle position to the path point at walk offset `i`
from the previous index `lw` (the sequence inspected by the incremental
mode). -/
def walkD (d : Point → Point → ℚ) (p : Point) (base : List Point) (lw i : ℕ) : ℚ :=
  d (base.getD ((i + lw) % base.length) dummyPoint) p

/-- `getD` agrees with `get` on in-range indices. -/
theorem getD_of_lt (l : List Point) (n : ℕ) (dflt : Point) (h : n < l.length) :
    l.getD n dflt = l.get ⟨n, h⟩ := by
  rw [List.getD_eq_getElem?_getD, List.getElem?_eq_getElem h]
  rfl

/-- Strict decrease chains forward: on the decreasing prefix, the valley
value is strictly below every earlier value. -/
theorem walkD_valley_lt_left (d : Point → Point → ℚ) (p : Point)
    (base : List Point) (lw k : ℕ)
    (hdec : ∀ i, i < k → walkD d p base lw (i + 1) < walkD d p base lw i) :
    ∀ j, j ≤ k → ∀ i, i < j → walkD d p base lw j < walkD d p base lw i := by
  intro j
  induction j with
  | zero => intro _ i hi; omega
  | succ j ih =>
    intro hj i hi
    have hstep : walkD d p base lw (j + 1) < walkD d p base lw j :=
      hdec j (by omega)
    rcases Nat.lt_succ_iff_lt_or_eq.mp hi with hlt | heq
    · exact lt_trans hstep (ih (by omega) i hlt)
    · rw [heq]; exact hstep

/-- Strict increase chains forward: past the valley, every later value is
strictly above the valley value. -/
theorem walkD_valley_lt_right (d : Point → Point → ℚ) (p : Point)
    (base : List Point) (lw k : ℕ)
    (hinc : ∀ i, k ≤ i → i + 1 < base.length →
      walkD d p base lw i < walkD d p base lw (i + 1)) :
    ∀ j, j < base.length → k < j → walkD d p base lw k < walkD d p base lw j := by
  intro j
  induction j with
  | zero => intro _ h; omega
  | succ j ih =>
    intro hj hkj
    rcases Nat.lt_succ_iff_lt_or_eq.mp hkj with hlt | heq
    · have hstep : walkD d p base lw j < walkD d p base lw (j + 1) :=
        hinc j (by omega) hj
      exact lt_trans (ih (by omega) hlt) hstep
    · rw [← heq]
      exact hinc k (le_refl k) (heq ▸ hj)

/-- Run of the incremental walk from offset `j` (with `1 ≤ j ≤ k`) carrying
the best seen so far (`offset j - 1`): under the decrease-then-increase
hypotheses the walk ends at the valley index `(k + lw) % length`. -/
theorem incGo_run (d : Point → Point → ℚ) (p : Point) (base : List Point)
    (lw k : ℕ) (hk : k < base.length)
    (hdec : ∀ i, i < k → walkD d p base lw (i + 1) < walkD d p base lw i)
    (hinc : ∀ i, k ≤ i → i + 1 < base.length →
      walkD d p base lw i < walkD d p base lw (i + 1)) :
    ∀ m j, j + m = k → 1 ≤ j →
      incGo d p base lw (base.length - j) j ((j - 1 + lw) % base.length)
        (some (walkD d p base lw (j - 1))) = (k + lw) % base.length := by
  intro m
  induction m with
  | zero =>
    intro j hj h1
    have hjk : j = k := by omega
    subst hjk
    have hfuel : base.length - j = (base.length - j - 1) + 1 := by omega
    rw [hfuel]
    have himp : walkD d p base lw j < walkD d p base lw (j - 1) := by
      have := hdec (j - 1) (by omega)
      rwa [Nat.sub_add_cancel h1] at this
    have himp2 : d (base.getD ((j + lw) % base.length) dummyPoint) p
        < walkD d p base lw (j - 1) := himp
    simp only [incGo, ltO, decide_eq_true_eq]
    rw [if_pos himp2]
    by_cases hlast : j + 1 = base.length
    · have : base.length - j - 1 = 0 := by omega
      rw [this]
      rfl
    · have hfuel2 : base.length - j - 1 = (base.length - j - 2) + 1 := by omega
      rw [hfuel2]
      have hnoimp : ¬ walkD d p base lw (j + 1) < walkD d p base lw j :=
        not_lt.mpr (le_of_lt (hinc j (le_refl j) (by omega)))
      have hnoimp2 : ¬ d (base.getD ((j + 1 + lw) % base.length) dummyPoint) p
          < d (base.getD ((j + lw) % base.length) dummyPoint) p := hnoimp
      simp only [incGo, ltO, decide_eq_true_eq]
      rw [if_neg hnoimp2]
  | succ m ih =>
    intro j hj h1
    have hjk : j < k := by omega
    have hfuel : base.length - j = (base.length - j - 1) + 1 := by omega
    rw [hfuel]
    have himp : walkD d p base lw j < walkD d p base lw (j - 1) := by
      have := hdec (j - 1) (by omega)
      rwa [Nat.sub_add_cancel h1] at this
    have himp2 : d (base.getD ((j + lw) % base.length) dummyPoint) p
        < walkD d p base lw (j - 1) := himp
    simp only [incGo, ltO, decide_eq_true_eq]
    rw [if_pos himp2]
    have hrun := ih (j + 1) (by omega) (by omega)
    rw [Nat.add_sub_cancel] at hrun
    have hfe : base.length - (j + 1) = base.length - j - 1 := by omega
    rw [hfe] at hrun
    exact hrun

/-- Under the decrease-then-increase hypotheses the incremental mode returns
the valley index `(k + lw) % length`. -/
theorem incrementalSearch_eq (d : Point → Point → ℚ) (p : Point)
    (base : List Point) (lw k : ℕ) (hn : 0 < base.length) (hk : k < base.length)
    (hdec : ∀ i, i < k → walkD d p base lw (i + 1) < walkD d p base lw i)
    (hinc : ∀ i, k ≤ i → i + 1 < base.length →
      walkD d p base lw i < walkD d p base lw (i + 1)) :
    incrementalSearch d p base lw = (k + lw) % base.length := by
  unfold incrementalSearch
  have hstep : incGo d p base lw base.length 0 0 none
      = incGo d p base lw (base.length - 1) 1 ((0 + lw) % base.length)
          (some (walkD d p base lw 0)) := by
    conv_lhs => rw [show base.length = (base.length - 1) + 1 from by omega]
    simp only [incGo, ltO]
    rw [if_pos trivial]
    rfl
  rw [hstep]
  rcases Nat.eq_zero_or_pos k with hk0 | hkpos
  · subst hk0
    by_cases hone : base.length = 1
    · have h0 : base.length - 1 = 0 := by omega
      rw [h0]
      rfl
    · have hfuel2 : base.length - 1 = (base.length - 2) + 1 := by omega
      rw [hfuel2]
      have hnoimp : ¬ walkD d p base lw (0 + 1) < walkD d p base lw 0 :=
        not_lt.mpr (le_of_lt (hinc 0 (le_refl 0) (by omega)))
      have hnoimp2 : ¬ d (base.getD ((1 + lw) % base.length) dummyPoint) p
          < walkD d p base lw 0 := hnoimp
      simp only [incGo, ltO, decide_eq_true_eq]
      rw [if_neg hnoimp2]
  · have hrun := incGo_run d p base lw k hk hdec hinc (k - 1) 1 (by omega)
      (le_refl 1)
    exact hrun

/-- If no remaining waypoint improves on the running best, the full scan
returns the recorded best index. -/
theorem fullGo_no_improve (d : Point → Point → ℚ) (p : Point) :
    ∀ (l : List Point) (i bIdx : ℕ) (best : Option ℚ),
      (∀ w ∈ l, ltO (d w p) best = false) →
      fullGo d p l i bIdx best = bIdx := by
  intro l
  induction l with
  | nil => intro i bIdx best _; rfl
  | cons w t ih =>
    intro i bIdx best h
    have hw : ltO (d w p) best = false := h w (List.mem_cons_self w t)
    simp only [fullGo, hw]
    rw [if_neg (by simp)]
    exact ih (i + 1) bIdx best (fun w' hw' => h w' (List.mem_cons_of_mem w hw'))

/-- If position `pq` of the remaining list improves on the running best and
is strictly closer than every other remaining position, the full scan
returns its absolute index `i + pq`. -/
theorem fullGo_unique_min (d : Point → Point → ℚ) (p : Point) :
    ∀ (l : List Point) (i bIdx : ℕ) (best : Option ℚ) (pq : ℕ)
      (hpq : pq < l.length),
      ltO (d (l.get ⟨pq, hpq⟩) p) best = true →
      (∀ q (hq : q < l.length), q ≠ pq →
        d (l.get ⟨pq, hpq⟩) p < d (l.get ⟨q, hq⟩) p) →
      fullGo d p l i bIdx best = i + pq := by
  intro l
  induction l with
  | nil => intro i bIdx best pq hpq; exact absurd hpq (by simp)
  | cons w t ih =>
    intro i bIdx best pq hpq himp hmin
    match pq with
    | 0 =>
      have hw : ltO (d w p) best = true := himp
      simp only [fullGo, hw]
      rw [if_pos trivial]
      have hrest : fullGo d p t (i + 1) i (some (d w p)) = i := by
        apply fullGo_no_improve
        intro w' hw'
        obtain ⟨⟨q, hq⟩, hgq⟩ := List.mem_iff_get.mp hw'
        have hlt : d w p < d w' p := by
          rw [← hgq]
          have := hmin (q + 1) (by simpa using hq) (by omega)
          simpa using this
        simp [ltO, not_lt.mpr (le_of_lt hlt)]
      rw [hrest]
      omega
    | q + 1 =>
      have hq : q < t.length := by simpa using hpq
      have hgetc : (w :: t).get ⟨q + 1, hpq⟩ = t.get ⟨q, hq⟩ := rfl
      by_cases hw : ltO (d w p) best = true
      · simp only [fullGo, hw]
        rw [if_pos trivial]
        have himp' : ltO (d (t.get ⟨q, hq⟩) p) (some (d w p)) = true := by
          have hlt : d ((w :: t).get ⟨q + 1, hpq⟩) p < d w p := by
            have := hmin 0 (by simp) (by omega)
            simpa using this
          rw [hgetc] at hlt
          simp only [ltO, decide_eq_true_eq]
          exact hlt
        have hmin' : ∀ q' (hq' : q' < t.length), q' ≠ q →
            d (t.get ⟨q, hq⟩) p < d (t.get ⟨q', hq'⟩) p := by
          intro q' hq' hne
          have := hmin (q' + 1) (by simpa using hq') (by omega)
          rw [hgetc] at this
          simpa using this
        rw [ih (i + 1) i (some (d w p)) q hq himp' hmin']
        omega
      · have hwf : ltO (d w p) best = false := by
          revert hw
          cases ltO (d w p) best <;> simp
        simp only [fullGo, hwf]
        rw [if_neg (by simp)]
        have himp' : ltO (d (t.get ⟨q, hq⟩) p) best = true := by
          rw [← hgetc]
          exact himp
        have hmin' : ∀ q' (hq' : q' < t.length), q' ≠ q →
            d (t.get ⟨q, hq⟩) p < d (t.get ⟨q', hq'⟩) p := by
          intro q' hq' hne
          have := hmin (q' + 1) (by simpa using hq') (by omega)
          rw [hgetc] at this
          simpa using this
        rw [ih (i + 1) bIdx best q hq himp' hmin']
        omega

/-- The full scan returns the index of a unique strict minimiser. -/
theorem fullSearch_eq (d : Point → Point → ℚ) (p : Point) (base : List Point)
    (m : ℕ) (hm : m < base.length)
    (hmin : ∀ q (hq : q < base.length), q ≠ m →
      d (base.get ⟨m, hm⟩) p < d (base.get ⟨q, hq⟩) p) :
    fullSearch d p base = m := by
  unfold fullSearch
  have := fullGo_unique_min d p base 0 0 none m hm (by rfl) hmin
  simpa using this

/-- Every base index is reached by the incremental walk at some offset below
the path length. -/
theorem walk_pos_exists (n lw q : ℕ) (hn : 0 < n) (hq : q < n) :
    ∃ i, i < n ∧ (i + lw) % n = q := by
  refine ⟨(q + n - lw % n) % n, Nat.mod_lt _ hn, ?_⟩
  have hml : lw % n < n := Nat.mod_lt _ hn
  have hdm := Nat.div_add_mod lw n
  rw [Nat.mod_add_mod]
  have e : (q + n - lw % n) + lw = q + n * (lw / n) + n := by omega
  rw [e, Nat.add_mod_right, Nat.add_mul_mod_self_left]
  exact Nat.mod_eq_of_lt hq

/-- Under the decrease-then-increase hypotheses the valley index is the
unique strict minimiser over all base indices. -/
theorem walk_unique_min (d : Point → Point → ℚ) (p : Point) (base : List Point)
    (lw k : ℕ) (hn : 0 < base.length) (hk : k < base.length)
    (hdec : ∀ i, i < k → walkD d p base lw (i + 1) < walkD d p base lw i)
    (hinc : ∀ i, k ≤ i → i + 1 < base.length →
      walkD d p base lw i < walkD d p base lw (i + 1)) :
    ∀ q, q < base.length → q ≠ (k + lw) % base.length →
      d (base.getD ((k + lw) % base.length) dummyPoint) p
        < d (base.getD q dummyPoint) p := by
  intro q hq hne
  obtain ⟨i, hi, hiq⟩ := walk_pos_exists base.length lw q hn hq
  have hik : i ≠ k := by
    intro h
    subst h
    exact hne hiq.symm
  have hDq : d (base.getD q dummyPoint) p = walkD d p base lw i := by
    rw [← hiq]
    rfl
  rw [hDq]
  rcases Nat.lt_or_ge i k with hlt | hge
  · exact walkD_valley_lt_left d p base lw k hdec k (le_refl k) i hlt
  · have hgt : k < i := by omega
    exact walkD_valley_lt_right d p base lw k hinc i hi hgt

/-- C8: for every pose, non-empty base path, previous index `lw` and valley
offset `k` such that the walked distances strictly decrease up to offset `k`
and strictly increase afterwards (the monotonic-approach precondition), the
incremental mode of the path locator returns the same index as the full
scan — stated for the complete locator including the is-behind correction. -/
theorem C8_incremental_eq_full (d : Point → Point → ℚ) (pose : CarPose)
    (base : List Point) (lw k : ℕ) (hn : 0 < base.length)
    (hk : k < base.length)
    (hdec : ∀ i, i < k →
      walkD d pose.pt base lw (i + 1) < walkD d pose.pt base lw i)
    (hinc : ∀ i, k ≤ i → i + 1 < base.length →
      walkD d pose.pt base lw i < walkD d pose.pt base lw (i + 1)) :
    incrementalSearch d pose.pt base lw = fullSearch d pose.pt base ∧
    get_closest_waypoint d pose base (some lw)
      = get_closest_waypoint d pose base none := by
  have hm : (k + lw) % base.length < base.length := Nat.mod_lt _ hn
  have hfull : fullSearch d pose.pt base = (k + lw) % base.length := by
    apply fullSearch_eq d pose.pt base _ hm
    intro q hq hne
    have := walk_unique_min d pose.pt base lw k hn hk hdec hinc q hq hne
    rwa [getD_of_lt base _ dummyPoint hm, getD_of_lt base q dummyPoint hq] at this
  have hincr : incrementalSearch d pose.pt base lw = (k + lw) % base.length :=
    incrementalSearch_eq d pose.pt base lw k hn hk hdec hinc
  refine ⟨hincr.trans hfull.symm, ?_⟩
  unfold get_closest_waypoint searchIndex
  dsimp only
  rw [hincr, hfull]

/-- C8, witness: three colinear waypoints at x = 0, 1, 2, the vehicle at
x = 9/10 facing the positive x-axis, previous index 0.  The walked distances
are 9/10, 1/10, 11/10: strictly decreasing to offset 1, then strictly
increasing, so both modes return index 1.  `dLin` is the exact Euclidean
distance for these colinear points. -/
theorem C8_witness :
    incrementalSearch dLin (CarPose.pt ⟨9/10, 0, 0, 1, 0⟩)
        [⟨0, 0, 0⟩, ⟨1, 0, 0⟩, ⟨2, 0, 0⟩] 0
      = fullSearch dLin (CarPose.pt ⟨9/10, 0, 0, 1, 0⟩)
        [⟨0, 0, 0⟩, ⟨1, 0, 0⟩, ⟨2, 0, 0⟩] ∧
    get_closest_waypoint dLin ⟨9/10, 0, 0, 1, 0⟩
        [⟨0, 0, 0⟩, ⟨1, 0, 0⟩, ⟨2, 0, 0⟩] (some 0)
      = get_closest_waypoint dLin ⟨9/10, 0, 0, 1, 0⟩
        [⟨0, 0, 0⟩, ⟨1, 0, 0⟩, ⟨2, 0, 0⟩] none := by
  apply C8_incremental_eq_full dLin ⟨9/10, 0, 0, 1, 0⟩
    [⟨0, 0, 0⟩, ⟨1, 0, 0⟩, ⟨2, 0, 0⟩] 0 1 (by simp) (by simp)
  · intro i hi
    have h0 : i = 0 := by omega
    subst h0
    norm_num [walkD, dLin, CarPose.pt]
  · intro i hge hlt
    simp only [List.length_cons, List.length_nil] at hlt
    have h1 : i = 1 := by omega
    subst h1
    norm_num [walkD, dLin, CarPose.pt]

/-! ## waypoint_updater: trajectory generator
(`WaypointUpdater.__generate_next_waypoints`, `set_waypoint_velocity`) -/

/-- `KPH_MPS = 0.277778` in waypoint_updater.py. -/
def KPH_MPS : ℚ := 0.277778

/-- `SAFE_ACCEL = 1` in waypoint_updater.py. -/
def SAFE_ACCEL : ℚ := 1

/-- `self.braking_distance = self.max_vel * 2` set in `__init__`. -/
def braking_distance (max_vel : ℚ) : ℚ := max_vel * 2

/-- `self.creep_speed = 5.0 * KPH_MPS` set in `__init__`. -/
def creep_speed : ℚ := 5.0 * KPH_MPS

/-- `self.stop_distance = 5.0` set in `__init__`. -/
def stop_distance : ℚ := 5.0

/-- `WaypointUpdater.set_waypoint_velocity`: store the desired velocity on
the waypoint, clamped above at the speed limit `max_vel * KPH_MPS`.  The
source mutates the waypoint object; here the updated waypoint is returned. -/
def set_waypoint_velocity (max_vel : ℚ) (waypoint : Waypoint) (velocity : ℚ) :
    Waypoint :=
  { waypoint with vel := min velocity (max_vel * KPH_MPS) }

/-- Apply a function to the element of a list at an index (out-of-range
indices leave the list unchanged) — the effect of mutating the list element
`waypoints[idx]` in place. -/
def updateAt : List Waypoint → ℕ → (Waypoint → Waypoint) → List Waypoint
  | [], _, _ => []
  | w :: rest, 0, f => f w :: rest
  | w :: rest, idx + 1, f => w :: updateAt rest idx f

/-- The cruise branch of `__generate_next_waypoints`
(`for i in range(closest_idx, last_idx)` with `brake` false): each visited
waypoint gets `current_speed = min(current_speed + SAFE_ACCEL, speed_limit)`.
`fuel` is the remaining number of loop iterations, `i` the loop variable,
`n = len(self.base_waypoints)`; the accumulator collects the visited indices
(the waypoint objects appended to `next_waypoints`) in reverse. -/
def cruiseWalk (max_vel : ℚ) (n : ℕ) :
    ℕ → ℕ → ℚ → List Waypoint → List ℕ → List Waypoint × List ℕ
  | 0, _, _, wps, acc => (wps, acc.reverse)
  | fuel + 1, i, cs, wps, acc =>
    let idx := i % n
    let cs2 := min (cs + SAFE_ACCEL) (max_vel * KPH_MPS)
    cruiseWalk max_vel n fuel (i + 1) cs2
      (updateAt wps idx (fun w => set_waypoint_velocity max_vel w cs2))
      (idx :: acc)

/-- The brake branch of `__generate_next_waypoints`: walk the lookahead
range; before the stop index is found, compare the per-point distance to the
stop waypoint against the braking distance / stop distance and assign an
accelerating, creeping or decelerating speed; at the stop index and beyond
assign zero.  `current_speed` is the fixed `self.current_speed` read at call
time (used by the deceleration formula), `cs` the running loop speed. -/
def brakeWalk (d : Point → Point → ℚ) (max_vel : ℚ) (traffic_pos : Point)
    (traffic_idx : ℤ) (brake_coeff current_speed : ℚ) (n : ℕ) :
    ℕ → ℕ → ℚ → Bool → List Waypoint → List ℕ → List Waypoint × List ℕ
  | 0, _, _, _, wps, acc => (wps, acc.reverse)
  | fuel + 1, i, cs, found, wps, acc =>
    let idx := i % n
    if found then
      brakeWalk d max_vel traffic_pos traffic_idx brake_coeff current_speed n
        fuel (i + 1) cs true
        (updateAt wps idx (fun w => set_waypoint_velocity max_vel w 0))
        (idx :: acc)
    else
      let wp_distance := d (wps.getD idx dummyWaypoint).pos traffic_pos
      if (idx : ℤ) = traffic_idx then
        brakeWalk d max_vel traffic_pos traffic_idx brake_coeff current_speed n
          fuel (i + 1) cs true
          (updateAt wps idx (fun w => set_waypoint_velocity max_vel w 0))
          (idx :: acc)
      else if wp_distance > braking_distance max_vel then
        let cs2 := min (cs + SAFE_ACCEL * 0.25) (max_vel * KPH_MPS)
        brakeWalk d max_vel traffic_pos traffic_idx brake_coeff current_speed n
          fuel (i + 1) cs2 false
          (updateAt wps idx (fun w => set_waypoint_velocity max_vel w cs2))
          (idx :: acc)
      else
        let rec_speed :=
          if wp_distance > stop_distance then creep_speed
          else current_speed - brake_coeff * (braking_distance max_vel - wp_distance)
        brakeWalk d max_vel traffic_pos traffic_idx brake_coeff current_speed n
          fuel (i + 1) cs false
          (updateAt wps idx (fun w => set_waypoint_velocity max_vel w rec_speed))
          (idx :: acc)

/-- `WaypointUpdater.__generate_next_waypoints`.  Parameters mirror the
method and the object fields it reads: `current_speed = self.current_speed`,
`apply_brake = self.apply_brake`, `max_vel = self.max_vel`, `waypoints` both
the parameter and `self.base_waypoints` (the driver passes the same list).
The source's `waypoints is None` guard is outside the embedding, which takes
the list itself.  Returns the post-call waypoint list (the source mutates
the shared base waypoints in place) together with the indices of the
appended trajectory waypoints, or `none` when the source would raise a
ZeroDivisionError (`brake_coeff` with `self.current_speed = 0`).  The
source's intermediate locals `traffic_wp`, `stop_distance` and `brake_coeff`
are pure and inlined into the brake-walk call; they are computed before the
division in the source, but evaluation order is irrelevant for the
embedding. -/
def generate_next_waypoints (d : Point → Point → ℚ)
    (max_vel current_speed : ℚ) (apply_brake : Bool) (pose : Point)
    (waypoints : List Waypoint) (closest_idx last_idx : ℕ)
    (traffic_idx : ℤ) : Option (List Waypoint × List ℕ) :=
  if ¬ apply_brake then
    some (cruiseWalk max_vel waypoints.length (last_idx - closest_idx)
      closest_idx current_speed waypoints [])
  else if traffic_idx = -1 then
    some (waypoints, [])
  else if current_speed = 0 then none
  else
    some (brakeWalk d max_vel
      (waypoints.getD (traffic_idx % (waypoints.length : ℤ)).toNat
        dummyWaypoint).pos
      traffic_idx
      (min (d pose (waypoints.getD (traffic_idx % (waypoints.length : ℤ)).toNat
          dummyWaypoint).pos)
        (braking_distance max_vel) / current_speed)
      current_speed waypoints.length (last_idx - closest_idx) closest_idx
      current_speed false waypoints [])

theorem length_updateAt : ∀ (l : List Waypoint) (idx : ℕ) (f : Waypoint → Waypoint),
    (updateAt l idx f).length = l.length := by
  intro l
  induction l with
  | nil => intro idx f; rfl
  | cons w rest ih =>
    intro idx f
    match idx with
    | 0 => rfl
    | idx + 1 => simp [updateAt, ih]

theorem getD_updateAt_ne : ∀ (l : List Waypoint) (idx : ℕ)
    (f : Waypoint → Waypoint) (m : ℕ), m ≠ idx →
    (updateAt l idx f).getD m dummyWaypoint = l.getD m dummyWaypoint := by
  intro l
  induction l with
  | nil => intro idx f m _; rfl
  | cons w rest ih =>
    intro idx f m hne
    match idx, m with
    | 0, 0 => omega
    | 0, m + 1 => simp [updateAt]
    | idx + 1, 0 => simp [updateAt]
    | idx + 1, m + 1 =>
      simp only [updateAt, List.getD_cons_succ]
      exact ih idx f m (by omega)

theorem getD_updateAt_eq : ∀ (l : List Waypoint) (idx : ℕ)
    (f : Waypoint → Waypoint), idx < l.length →
    (updateAt l idx f).getD idx dummyWaypoint = f (l.getD idx dummyWaypoint) := by
  intro l
  induction l with
  | nil => intro idx f h; simp at h
  | cons w rest ih =>
    intro idx f h
    match idx with
    | 0 => rfl
    | idx + 1 =>
      simp only [updateAt, List.getD_cons_succ]
      exact ih idx f (by simpa using h)

/-- Invariants of the cruise walk: (1) every waypoint is either untouched or
clamped below the speed limit; (2) every index in the produced trajectory
comes from the accumulator or holds a final speed below the limit; (3)
indices outside the produced trajectory are untouched; (4) the accumulator
is contained in the produced trajectory; (5) positions are never changed;
(6) the length is preserved. -/
theorem cruiseWalk_spec (mv : ℚ) (n : ℕ) :
    ∀ (fuel i : ℕ) (cs : ℚ) (wps : List Waypoint) (acc : List ℕ),
    n = wps.length → 0 < n →
    (∀ m, (cruiseWalk mv n fuel i cs wps acc).1.getD m dummyWaypoint
        = wps.getD m dummyWaypoint ∨
      ((cruiseWalk mv n fuel i cs wps acc).1.getD m dummyWaypoint).vel
        ≤ mv * KPH_MPS) ∧
    (∀ j, j ∈ (cruiseWalk mv n fuel i cs wps acc).2 → j ∈ acc ∨
      ((cruiseWalk mv n fuel i cs wps acc).1.getD j dummyWaypoint).vel
        ≤ mv * KPH_MPS) ∧
    (∀ m, m ∉ (cruiseWalk mv n fuel i cs wps acc).2 →
      (cruiseWalk mv n fuel i cs wps acc).1.getD m dummyWaypoint
        = wps.getD m dummyWaypoint) ∧
    (∀ j, j ∈ acc → j ∈ (cruiseWalk mv n fuel i cs wps acc).2) ∧
    (∀ m, ((cruiseWalk mv n fuel i cs wps acc).1.getD m dummyWaypoint).pos
        = (wps.getD m dummyWaypoint).pos) ∧
    (cruiseWalk mv n fuel i cs wps acc).1.length = wps.length := by
  intro fuel
  induction fuel with
  | zero =>
    intro i cs wps acc _ _
    refine ⟨fun m => Or.inl rfl, ?_, fun m _ => rfl, ?_, fun m => rfl, rfl⟩
    · intro j hj
      simp only [cruiseWalk, List.mem_reverse] at hj
      exact Or.inl hj
    · intro j hj
      simp only [cruiseWalk, List.mem_reverse]
      exact hj
  | succ fuel ih =>
    intro i cs wps acc hlen hn
    have hidx : i % n < wps.length := by
      rw [← hlen]
      exact Nat.mod_lt _ hn
    set cs2 := min (cs + SAFE_ACCEL) (mv * KPH_MPS) with hcs2
    set wps2 := updateAt wps (i % n)
      (fun w => set_waypoint_velocity mv w cs2) with hwps2
    have hlen2 : n = wps2.length := by
      rw [hwps2, length_updateAt, hlen]
    obtain ⟨iha, ihb, ihc, ihd, ihe, ihf⟩ :=
      ih (i + 1) cs2 wps2 ((i % n) :: acc) hlen2 hn
    have hstep : cruiseWalk mv n (fuel + 1) i cs wps acc
        = cruiseWalk mv n fuel (i + 1) cs2 wps2 ((i % n) :: acc) := rfl
    have hwval : (wps2.getD (i % n) dummyWaypoint).vel ≤ mv * KPH_MPS := by
      rw [hwps2, getD_updateAt_eq wps (i % n) _ hidx]
      simp [set_waypoint_velocity]
    have hw2 : ∀ m, wps2.getD m dummyWaypoint = wps.getD m dummyWaypoint ∨
        (wps2.getD m dummyWaypoint).vel ≤ mv * KPH_MPS := by
      intro m
      by_cases hm : m = i % n
      · subst hm
        exact Or.inr hwval
      · exact Or.inl (getD_updateAt_ne wps (i % n) _ m hm)
    rw [hstep]
    refine ⟨?_, ?_, ?_, ?_, ?_, ?_⟩
    · intro m
      rcases iha m with h | h
      · rcases hw2 m with h2 | h2
        · exact Or.inl (h.trans h2)
        · exact Or.inr (h ▸ h2)
      · exact Or.inr h
    · intro j hj
      rcases ihb j hj with hmem | h
      · rcases List.mem_cons.mp hmem with h0 | h0
        · subst h0
          rcases iha (i % n) with h | h
          · exact Or.inr (by rw [h]; exact hwval)
          · exact Or.inr h
        · exact Or.inl h0
      · exact Or.inr h
    · intro m hm
      have hne : m ≠ i % n := by
        intro h
        subst h
        exact hm (ihd (i % n) (List.mem_cons_self _ _))
      rw [ihc m hm, hwps2, getD_updateAt_ne wps (i % n) _ m hne]
    · intro j hj
      exact ihd j (List.mem_cons_of_mem _ hj)
    · intro m
      rw [ihe m]
      by_cases hm : m = i % n
      · subst hm
        rw [hwps2, getD_updateAt_eq wps (i % n) _ hidx]
        simp [set_waypoint_velocity]
      · rw [hwps2, getD_updateAt_ne wps (i % n) _ m hm]
    · rw [ihf, hwps2, length_updateAt]

/-- One step of the brake walk always writes some clamped speed at the
current index and pushes the index on the accumulator, for some updated
loop speed and found flag. -/
theorem brakeWalk_step (d : Point → Point → ℚ) (mv : ℚ) (tp : Point) (ti : ℤ)
    (bc cs0 : ℚ) (n fuel i : ℕ) (cs : ℚ) (found : Bool)
    (wps : List Waypoint) (acc : List ℕ) :
    ∃ v cs2 found2,
      brakeWalk d mv tp ti bc cs0 n (fuel + 1) i cs found wps acc
        = brakeWalk d mv tp ti bc cs0 n fuel (i + 1) cs2 found2
            (updateAt wps (i % n) (fun w => set_waypoint_velocity mv w v))
            ((i % n) :: acc) := by
  cases found with
  | true => exact ⟨0, cs, true, rfl⟩
  | false =>
    by_cases hhit : ((i % n : ℕ) : ℤ) = ti
    · refine ⟨0, cs, true, ?_⟩
      simp only [brakeWalk]
      rw [if_pos hhit]
      rfl
    · by_cases hfar : d (wps.getD (i % n) dummyWaypoint).pos tp
          > braking_distance mv
      · refine ⟨min (cs + SAFE_ACCEL * 0.25) (mv * KPH_MPS),
          min (cs + SAFE_ACCEL * 0.25) (mv * KPH_MPS), false, ?_⟩
        simp only [brakeWalk]
        rw [if_neg hhit, if_pos hfar]
        rfl
      · refine ⟨if d (wps.getD (i % n) dummyWaypoint).pos tp > stop_distance
            then creep_speed
            else cs0 - bc * (braking_distance mv
              - d (wps.getD (i % n) dummyWaypoint).pos tp), cs, false, ?_⟩
        simp only [brakeWalk]
        rw [if_neg hhit, if_neg hfar]
        rfl

/-- With the found flag set, one step of the brake walk writes zero. -/
theorem brakeWalk_step_found (d : Point → Point → ℚ) (mv : ℚ) (tp : Point)
    (ti : ℤ) (bc cs0 : ℚ) (n fuel i : ℕ) (cs : ℚ)
    (wps : List Waypoint) (acc : List ℕ) :
    brakeWalk d mv tp ti bc cs0 n (fuel + 1) i cs true wps acc
      = brakeWalk d mv tp ti bc cs0 n fuel (i + 1) cs true
          (updateAt wps (i % n) (fun w => set_waypoint_velocity mv w 0))
          ((i % n) :: acc) := rfl

/-- When the current index is the stop index, one step of the brake walk
writes zero and sets the found flag. -/
theorem brakeWalk_step_hit (d : Point → Point → ℚ) (mv : ℚ) (tp : Point)
    (ti : ℤ) (bc cs0 : ℚ) (n fuel i : ℕ) (cs : ℚ)
    (wps : List Waypoint) (acc : List ℕ) (hhit : ((i % n : ℕ) : ℤ) = ti) :
    brakeWalk d mv tp ti bc cs0 n (fuel + 1) i cs false wps acc
      = brakeWalk d mv tp ti bc cs0 n fuel (i + 1) cs true
          (updateAt wps (i % n) (fun w => set_waypoint_velocity mv w 0))
          ((i % n) :: acc) := by
  simp only [brakeWalk]
  rw [if_pos hhit]
  rfl

/-- When the current index is not the stop index (and the flag is unset),
one step of the brake walk keeps the flag unset and writes some clamped
speed at the current index. -/
theorem brakeWalk_step_miss (d : Point → Point → ℚ) (mv : ℚ) (tp : Point)
    (ti : ℤ) (bc cs0 : ℚ) (n fuel i : ℕ) (cs : ℚ)
    (wps : List Waypoint) (acc : List ℕ) (hmiss : ((i % n : ℕ) : ℤ) ≠ ti) :
    ∃ v cs2,
      brakeWalk d mv tp ti bc cs0 n (fuel + 1) i cs false wps acc
        = brakeWalk d mv tp ti bc cs0 n fuel (i + 1) cs2 false
            (updateAt wps (i % n) (fun w => set_waypoint_velocity mv w v))
            ((i % n) :: acc) := by
  by_cases hfar : d (wps.getD (i % n) dummyWaypoint).pos tp > braking_distance mv
  · refine ⟨min (cs + SAFE_ACCEL * 0.25) (mv * KPH_MPS),
      min (cs + SAFE_ACCEL * 0.25) (mv * KPH_MPS), ?_⟩
    simp only [brakeWalk]
    rw [if_neg hmiss, if_pos hfar]
    rfl
  · refine ⟨if d (wps.getD (i % n) dummyWaypoint).pos tp > stop_distance
        then creep_speed
        else cs0 - bc * (braking_distance mv
          - d (wps.getD (i % n) dummyWaypoint).pos tp), cs, ?_⟩
    simp only [brakeWalk]
    rw [if_neg hmiss, if_neg hfar]
    rfl

/-- Invariants of the brake walk, analogous to those of the cruise walk:
untouched-or-clamped, trajectory speeds clamped, frame property for
unvisited indices, accumulator containment, position preservation, and
length preservation. -/
theorem brakeWalk_spec (d : Point → Point → ℚ) (mv : ℚ) (tp : Point) (ti : ℤ)
    (bc cs0 : ℚ) (n : ℕ) :
    ∀ (fuel i : ℕ) (cs : ℚ) (found : Bool) (wps : List Waypoint) (acc : List ℕ),
    n = wps.length → 0 < n →
    (∀ m, (brakeWalk d mv tp ti bc cs0 n fuel i cs found wps acc).1.getD m
        dummyWaypoint = wps.getD m dummyWaypoint ∨
      ((brakeWalk d mv tp ti bc cs0 n fuel i cs found wps acc).1.getD m
        dummyWaypoint).vel ≤ mv * KPH_MPS) ∧
    (∀ j, j ∈ (brakeWalk d mv tp ti bc cs0 n fuel i cs found wps acc).2 →
      j ∈ acc ∨
      ((brakeWalk d mv tp ti bc cs0 n fuel i cs found wps acc).1.getD j
        dummyWaypoint).vel ≤ mv * KPH_MPS) ∧
    (∀ m, m ∉ (brakeWalk d mv tp ti bc cs0 n fuel i cs found wps acc).2 →
      (brakeWalk d mv tp ti bc cs0 n fuel i cs found wps acc).1.getD m
        dummyWaypoint = wps.getD m dummyWaypoint) ∧
    (∀ j, j ∈ acc →
      j ∈ (brakeWalk d mv tp ti bc cs0 n fuel i cs found wps acc).2) ∧
    (∀ m, ((brakeWalk d mv tp ti bc cs0 n fuel i cs found wps acc).1.getD m
        dummyWaypoint).pos = (wps.getD m dummyWaypoint).pos) ∧
    (brakeWalk d mv tp ti bc cs0 n fuel i cs found wps acc).1.length
      = wps.length := by
  intro fuel
  induction fuel with
  | zero =>
    intro i cs found wps acc _ _
    refine ⟨fun m => Or.inl rfl, ?_, fun m _ => rfl, ?_, fun m => rfl, rfl⟩
    · intro j hj
      simp only [brakeWalk, List.mem_reverse] at hj
      exact Or.inl hj
    · intro j hj
      simp only [brakeWalk, List.mem_reverse]
      exact hj
  | succ fuel ih =>
    intro i cs found wps acc hlen hn
    have hidx : i % n < wps.length := by
      rw [← hlen]
      exact Nat.mod_lt _ hn
    obtain ⟨v, cs2, found2, hstep⟩ :=
      brakeWalk_step d mv tp ti bc cs0 n fuel i cs found wps acc
    set wps2 := updateAt wps (i % n)
      (fun w => set_waypoint_velocity mv w v) with hwps2
    have hlen2 : n = wps2.length := by
      rw [hwps2, length_updateAt, hlen]
    obtain ⟨iha, ihb, ihc, ihd, ihe, ihf⟩ :=
      ih (i + 1) cs2 found2 wps2 ((i % n) :: acc) hlen2 hn
    have hwval : (wps2.getD (i % n) dummyWaypoint).vel ≤ mv * KPH_MPS := by
      rw [hwps2, getD_updateAt_eq wps (i % n) _ hidx]
      simp [set_waypoint_velocity]
    have hw2 : ∀ m, wps2.getD m dummyWaypoint = wps.getD m dummyWaypoint ∨
        (wps2.getD m dummyWaypoint).vel ≤ mv * KPH_MPS := by
      intro m
      by_cases hm : m = i % n
      · subst hm
        exact Or.inr hwval
      · exact Or.inl (getD_updateAt_ne wps (i % n) _ m hm)
    rw [hstep]
    refine ⟨?_, ?_, ?_, ?_, ?_, ?_⟩
    · intro m
      rcases iha m with h | h
      · rcases hw2 m with h2 | h2
        · exact Or.inl (h.trans h2)
        · exact Or.inr (h ▸ h2)
      · exact Or.inr h
    · intro j hj
      rcases ihb j hj with hmem | h
      · rcases List.mem_cons.mp hmem with h0 | h0
        · subst h0
          rcases iha (i % n) with h | h
          · exact Or.inr (by rw [h]; exact hwval)
          · exact Or.inr h
        · exact Or.inl h0
      · exact Or.inr h
    · intro m hm
      have hne : m ≠ i % n := by
        intro h
        subst h
        exact hm (ihd (i % n) (List.mem_cons_self _ _))
      rw [ihc m hm, hwps2, getD_updateAt_ne wps (i % n) _ m hne]
    · intro j hj
      exact ihd j (List.mem_cons_of_mem _ hj)
    · intro m
      rw [ihe m]
      by_cases hm : m = i % n
      · subst hm
        rw [hwps2, getD_updateAt_eq wps (i % n) _ hidx]
        simp [set_waypoint_velocity]
      · rw [hwps2, getD_updateAt_ne wps (i % n) _ m hm]
    · rw [ihf, hwps2, length_updateAt]

/-- Once the found flag is set, every waypoint is either untouched or holds
the clamped zero speed, and every index visited by the remaining walk holds
the clamped zero speed in the final state. -/
theorem brakeWalk_found (d : Point → Point → ℚ) (mv : ℚ) (tp : Point) (ti : ℤ)
    (bc cs0 : ℚ) (n : ℕ) :
    ∀ (fuel i : ℕ) (cs : ℚ) (wps : List Waypoint) (acc : List ℕ),
    n = wps.length → 0 < n →
    (∀ m, (brakeWalk d mv tp ti bc cs0 n fuel i cs true wps acc).1.getD m
        dummyWaypoint = wps.getD m dummyWaypoint ∨
      ((brakeWalk d mv tp ti bc cs0 n fuel i cs true wps acc).1.getD m
        dummyWaypoint).vel = min 0 (mv * KPH_MPS)) ∧
    (∀ j, j < fuel →
      ((brakeWalk d mv tp ti bc cs0 n fuel i cs true wps acc).1.getD
        ((i + j) % n) dummyWaypoint).vel = min 0 (mv * KPH_MPS)) := by
  intro fuel
  induction fuel with
  | zero =>
    intro i cs wps acc _ _
    exact ⟨fun m => Or.inl rfl, fun j hj => absurd hj (by omega)⟩
  | succ fuel ih =>
    intro i cs wps acc hlen hn
    have hidx : i % n < wps.length := by
      rw [← hlen]
      exact Nat.mod_lt _ hn
    rw [brakeWalk_step_found]
    set wps2 := updateAt wps (i % n)
      (fun w => set_waypoint_velocity mv w 0) with hwps2
    have hlen2 : n = wps2.length := by
      rw [hwps2, length_updateAt, hlen]
    obtain ⟨iha, ihb⟩ := ih (i + 1) cs wps2 ((i % n) :: acc) hlen2 hn
    have hwval : (wps2.getD (i % n) dummyWaypoint).vel = min 0 (mv * KPH_MPS) := by
      rw [hwps2, getD_updateAt_eq wps (i % n) _ hidx]
      simp [set_waypoint_velocity]
    constructor
    · intro m
      rcases iha m with h | h
      · by_cases hm : m = i % n
        · subst hm
          exact Or.inr (h ▸ hwval)
        · exact Or.inl (h.trans (getD_updateAt_ne wps (i % n) _ m hm))
      · exact Or.inr h
    · intro j hj
      match j with
      | 0 =>
        have hi0 : (i + 0) % n = i % n := by rw [Nat.add_zero]
        rw [hi0]
        rcases iha (i % n) with h | h
        · rw [h]
          exact hwval
        · exact h
      | j + 1 =>
        have hi1 : (i + (j + 1)) % n = ((i + 1) + j) % n := by
          congr 1
          omega
        rw [hi1]
        exact ihb j (by omega)

/-- If the walk starts with the flag unset and first reaches the stop index
after `t` steps, then in the final state the stop-index waypoint and every
waypoint visited from step `t` on holds the clamped zero speed. -/
theorem brakeWalk_reach (d : Point → Point → ℚ) (mv : ℚ) (tp : Point) (ti : ℤ)
    (bc cs0 : ℚ) (n : ℕ) :
    ∀ (fuel t i : ℕ) (cs : ℚ) (wps : List Waypoint) (acc : List ℕ),
    n = wps.length → 0 < n → t < fuel →
    (((i + t) % n : ℕ) : ℤ) = ti →
    (∀ s, s < t → (((i + s) % n : ℕ) : ℤ) ≠ ti) →
    ∀ j, t ≤ j → j < fuel →
      ((brakeWalk d mv tp ti bc cs0 n fuel i cs false wps acc).1.getD
        ((i + j) % n) dummyWaypoint).vel = min 0 (mv * KPH_MPS) := by
  intro fuel
  induction fuel with
  | zero =>
    intro t i cs wps acc _ _ ht
    omega
  | succ fuel ih =>
    intro t i cs wps acc hlen hn ht hhit hmiss j htj hj
    match t with
    | 0 =>
      have hhit0 : ((i % n : ℕ) : ℤ) = ti := by
        have : (i + 0) % n = i % n := by rw [Nat.add_zero]
        rwa [this] at hhit
      rw [brakeWalk_step_hit d mv tp ti bc cs0 n fuel i cs wps acc hhit0]
      set wps2 := updateAt wps (i % n)
        (fun w => set_waypoint_velocity mv w 0) with hwps2
      have hidx : i % n < wps.length := by
        rw [← hlen]
        exact Nat.mod_lt _ hn
      have hlen2 : n = wps2.length := by
        rw [hwps2, length_updateAt, hlen]
      obtain ⟨fa, fb⟩ := brakeWalk_found d mv tp ti bc cs0 n fuel (i + 1) cs
        wps2 ((i % n) :: acc) hlen2 hn
      have hwval : (wps2.getD (i % n) dummyWaypoint).vel
          = min 0 (mv * KPH_MPS) := by
        rw [hwps2, getD_updateAt_eq wps (i % n) _ hidx]
        simp [set_waypoint_velocity]
      match j with
      | 0 =>
        have hi0 : (i + 0) % n = i % n := by rw [Nat.add_zero]
        rw [hi0]
        rcases fa (i % n) with h | h
        · rw [h]
          exact hwval
        · exact h
      | j + 1 =>
        have hi1 : (i + (j + 1)) % n = ((i + 1) + j) % n := by
          congr 1
          omega
        rw [hi1]
        exact fb j (by omega)
    | t + 1 =>
      have hmiss0 : ((i % n : ℕ) : ℤ) ≠ ti := by
        have h0 : (i + 0) % n = i % n := by rw [Nat.add_zero]
        have := hmiss 0 (by omega)
        rwa [h0] at this
      obtain ⟨v, cs2, hstep⟩ :=
        brakeWalk_step_miss d mv tp ti bc cs0 n fuel i cs wps acc hmiss0
      rw [hstep]
      set wps2 := updateAt wps (i % n)
        (fun w => set_waypoint_velocity mv w v) with hwps2
      have hlen2 : n = wps2.length := by
        rw [hwps2, length_updateAt, hlen]
      have hhit' : (((i + 1 + t) % n : ℕ) : ℤ) = ti := by
        have : (i + 1) + t = i + (t + 1) := by omega
        rwa [this]
      have hmiss' : ∀ s, s < t → (((i + 1 + s) % n : ℕ) : ℤ) ≠ ti := by
        intro s hs
        have : (i + 1) + s = i + (s + 1) := by omega
        rw [this]
        exact hmiss (s + 1) (by omega)
      match j with
      | 0 => omega
      | j + 1 =>
        have hi1 : (i + (j + 1)) % n = ((i + 1) + j) % n := by
          congr 1
          omega
        rw [hi1]
        exact ih t (i + 1) cs2 wps2 ((i % n) :: acc) hlen2 hn (by omega)
          hhit' hmiss' j (by omega) (by omega)

/-- C4, amended: whenever `__generate_next_waypoints` returns a trajectory
over a non-empty path, the final target speed of every trajectory waypoint
is at most the speed limit `max_vel * KPH_MPS` (the upper clamp of
`set_waypoint_velocity`).  The claimed lower bound 0 does not hold: the
brake-mode deceleration formula is not clamped below (see the
counterexample). -/
theorem C4_amended (d : Point → Point → ℚ) (mv cs : ℚ) (brake : Bool)
    (pose : Point) (wps : List Waypoint) (ci li : ℕ) (tr : ℤ)
    (wps2 : List Waypoint) (traj : List ℕ) (hn : 0 < wps.length)
    (hgen : generate_next_waypoints d mv cs brake pose wps ci li tr
      = some (wps2, traj)) :
    ∀ j, j ∈ traj → (wps2.getD j dummyWaypoint).vel ≤ mv * KPH_MPS := by
  unfold generate_next_waypoints at hgen
  cases brake with
  | false =>
    rw [if_pos (by simp)] at hgen
    have hpair := Option.some.inj hgen
    obtain ⟨_, hb2, _, _, _, _⟩ :=
      cruiseWalk_spec mv wps.length (li - ci) ci cs wps [] rfl hn
    rw [hpair] at hb2
    intro j hj
    rcases hb2 j hj with h | h
    · exact absurd h (List.not_mem_nil j)
    · exact h
  | true =>
    rw [if_neg (by simp)] at hgen
    by_cases htr : tr = -1
    · rw [if_pos htr] at hgen
      have hpair := Option.some.inj hgen
      have htraj : traj = [] := (Prod.mk.injEq _ _ _ _ ▸ hpair).2.symm
      intro j hj
      rw [htraj] at hj
      exact absurd hj (List.not_mem_nil j)
    · rw [if_neg htr] at hgen
      by_cases hcs : cs = 0
      · rw [if_pos hcs] at hgen
        exact absurd hgen (by simp)
      · rw [if_neg hcs] at hgen
        have hpair := Option.some.inj hgen
        obtain ⟨_, hb2, _, _, _, _⟩ :=
          brakeWalk_spec d mv
            (wps.getD (tr % (wps.length : ℤ)).toNat dummyWaypoint).pos tr
            (min (d pose (wps.getD (tr % (wps.length : ℤ)).toNat
              dummyWaypoint).pos) (braking_distance mv) / cs)
            cs wps.length (li - ci) ci cs false wps [] rfl hn
        rw [hpair] at hb2
        intro j hj
        rcases hb2 j hj with h | h
        · exact absurd h (List.not_mem_nil j)
        · exact h

/-- C4, counterexample: brake mode with max_vel = 20 (braking distance 40,
speed limit 5.55556), current speed 1, vehicle at the origin, stop waypoint
at x = 40 (index 1) and an intermediate waypoint at x = 36 (distance 4 from
the stop line, inside the 5-unit stop distance).  The deceleration formula
gives 1 - 40 * (40 - 4) = -1439, which `set_waypoint_velocity` does not
clamp below: a negative target speed is assigned, violating the claimed
[0, speed limit] range.  `dLin` is the exact Euclidean distance for these
colinear points. -/
theorem C4_counterexample :
    generate_next_waypoints dLin 20 1 true ⟨0, 0, 0⟩
      [⟨⟨36, 0, 0⟩, 1⟩, ⟨⟨40, 0, 0⟩, 1⟩] 0 2 1
      = some ([⟨⟨36, 0, 0⟩, -1439⟩, ⟨⟨40, 0, 0⟩, 0⟩], [0, 1]) ∧
    (([⟨⟨36, 0, 0⟩, -1439⟩, ⟨⟨40, 0, 0⟩, 0⟩] : List Waypoint).getD 0
      dummyWaypoint).vel < 0 := by
  constructor
  · norm_num [generate_next_waypoints, brakeWalk, updateAt,
      set_waypoint_velocity, braking_distance, stop_distance, creep_speed,
      KPH_MPS, SAFE_ACCEL, dLin]
  · norm_num [List.getD]

/-- C5, amended: in brake mode with stop index -1 the generator returns the
empty trajectory (and leaves the waypoints untouched); but when a valid stop
index is given with zero current speed, the division in the braking
coefficient is unguarded and the source raises a ZeroDivisionError
(modelled as `none`) — no empty trajectory is returned in that case. -/
theorem C5_amended (d : Point → Point → ℚ) (mv : ℚ) (pose : Point)
    (wps : List Waypoint) (ci li : ℕ) :
    (∀ cs : ℚ, generate_next_waypoints d mv cs true pose wps ci li (-1)
      = some (wps, [])) ∧
    (∀ tr : ℤ, tr ≠ -1 →
      generate_next_waypoints d mv 0 true pose wps ci li tr = none) := by
  constructor
  · intro cs
    unfold generate_next_waypoints
    rw [if_neg (by simp), if_pos rfl]
  · intro tr htr
    unfold generate_next_waypoints
    rw [if_neg (by simp), if_neg htr, if_pos rfl]

/-- C5, counterexample: braking towards a valid stop index (0) with current
speed 0: the generator raises (returns `none`) instead of returning an
empty trajectory as the claim states. -/
theorem C5_counterexample :
    generate_next_waypoints dLin 20 0 true ⟨0, 0, 0⟩ [⟨⟨0, 0, 0⟩, 1⟩] 0 2 0
      = none ∧
    ∀ ws : List Waypoint,
      generate_next_waypoints dLin 20 0 true ⟨0, 0, 0⟩ [⟨⟨0, 0, 0⟩, 1⟩] 0 2 0
        ≠ some (ws, []) := by
  have h : generate_next_waypoints dLin 20 0 true ⟨0, 0, 0⟩
      [⟨⟨0, 0, 0⟩, 1⟩] 0 2 0 = none := by
    unfold generate_next_waypoints
    rw [if_neg (by simp), if_neg (by decide), if_pos rfl]
  refine ⟨h, fun ws hw => ?_⟩
  rw [h] at hw
  exact Option.noConfusion hw

/-- C5, witness for the amended theorem: both clauses applied at concrete
inputs. -/
theorem C5_witness :
    generate_next_waypoints dLin 20 3 true ⟨0, 0, 0⟩ [⟨⟨0, 0, 0⟩, 1⟩] 0 2 (-1)
      = some ([⟨⟨0, 0, 0⟩, 1⟩], []) ∧
    generate_next_waypoints dLin 20 0 true ⟨0, 0, 0⟩ [⟨⟨0, 0, 0⟩, 1⟩] 0 2 7
      = none := by
  exact ⟨(C5_amended dLin 20 ⟨0, 0, 0⟩ [⟨⟨0, 0, 0⟩, 1⟩] 0 2).1 3,
    (C5_amended dLin 20 ⟨0, 0, 0⟩ [⟨⟨0, 0, 0⟩, 1⟩] 0 2).2 7 (by decide)⟩

/-- C6, amended: the generator does not copy: it mutates the target speeds
of the visited Base Path waypoints in place (the trajectory aliases the base
list).  What is preserved: waypoints whose index is not in the produced
trajectory are completely unchanged, positions are never changed, and the
length of the base list is unchanged.  The stored target speeds of visited
waypoints do change (see the counterexample). -/
theorem C6_amended (d : Point → Point → ℚ) (mv cs : ℚ) (brake : Bool)
    (pose : Point) (wps : List Waypoint) (ci li : ℕ) (tr : ℤ)
    (wps2 : List Waypoint) (traj : List ℕ) (hn : 0 < wps.length)
    (hgen : generate_next_waypoints d mv cs brake pose wps ci li tr
      = some (wps2, traj)) :
    (∀ m, m ∉ traj → wps2.getD m dummyWaypoint = wps.getD m dummyWaypoint) ∧
    (∀ m, (wps2.getD m dummyWaypoint).pos = (wps.getD m dummyWaypoint).pos) ∧
    wps2.length = wps.length := by
  unfold generate_next_waypoints at hgen
  cases brake with
  | false =>
    rw [if_pos (by simp)] at hgen
    have hpair := Option.some.inj hgen
    obtain ⟨_, _, hc, _, he, hf⟩ :=
      cruiseWalk_spec mv wps.length (li - ci) ci cs wps [] rfl hn
    rw [hpair] at hc he hf
    exact ⟨hc, he, hf⟩
  | true =>
    rw [if_neg (by simp)] at hgen
    by_cases htr : tr = -1
    · rw [if_pos htr] at hgen
      have hpair := Option.some.inj hgen
      have hw : wps = wps2 := (Prod.mk.injEq _ _ _ _ ▸ hpair).1
      subst hw
      exact ⟨fun m _ => rfl, fun m => rfl, rfl⟩
    · rw [if_neg htr] at hgen
      by_cases hcs : cs = 0
      · rw [if_pos hcs] at hgen
        exact absurd hgen (by simp)
      · rw [if_neg hcs] at hgen
        have hpair := Option.some.inj hgen
        obtain ⟨_, _, hc, _, he, hf⟩ :=
          brakeWalk_spec d mv
            (wps.getD (tr % (wps.length : ℤ)).toNat dummyWaypoint).pos tr
            (min (d pose (wps.getD (tr % (wps.length : ℤ)).toNat
              dummyWaypoint).pos) (braking_distance mv) / cs)
            cs wps.length (li - ci) ci cs false wps [] rfl hn
        rw [hpair] at hc he hf
        exact ⟨hc, he, hf⟩

/-- C6, counterexample: one cruise invocation over a two-point base path
with stored speeds 7 changes the stored target speed of the visited base
waypoint 0 from 7 to 1 — the Base Path is mutated, not copied.  `dLin` is
irrelevant here (cruise mode uses no distances) but instantiates the
abstract distance. -/
theorem C6_counterexample :
    generate_next_waypoints dLin 20 0 false ⟨0, 0, 0⟩
      [⟨⟨0, 0, 0⟩, 7⟩, ⟨⟨1, 0, 0⟩, 7⟩] 0 1 (-1)
      = some ([⟨⟨0, 0, 0⟩, 1⟩, ⟨⟨1, 0, 0⟩, 7⟩], [0]) ∧
    ([⟨⟨0, 0, 0⟩, 1⟩, ⟨⟨1, 0, 0⟩, 7⟩] : List Waypoint)
      ≠ [⟨⟨0, 0, 0⟩, 7⟩, ⟨⟨1, 0, 0⟩, 7⟩] := by
  constructor
  · norm_num [generate_next_waypoints, cruiseWalk, updateAt,
      set_waypoint_velocity, KPH_MPS, SAFE_ACCEL]
  · intro h
    have h0 := List.head_eq_of_cons_eq h
    have : (7 : ℚ) = 1 := congrArg Waypoint.vel h0.symm
    norm_num at this

/-- C6, witness for the amended theorem: in the counterexample run, the
unvisited waypoint 1 is completely unchanged and all positions are
preserved. -/
theorem C6_witness :
    (([⟨⟨0, 0, 0⟩, 1⟩, ⟨⟨1, 0, 0⟩, 7⟩] : List Waypoint).getD 1 dummyWaypoint
      = ([⟨⟨0, 0, 0⟩, 7⟩, ⟨⟨1, 0, 0⟩, 7⟩] : List Waypoint).getD 1 dummyWaypoint) ∧
    (([⟨⟨0, 0, 0⟩, 1⟩, ⟨⟨1, 0, 0⟩, 7⟩] : List Waypoint).getD 0 dummyWaypoint).pos
      = (([⟨⟨0, 0, 0⟩, 7⟩, ⟨⟨1, 0, 0⟩, 7⟩] : List Waypoint).getD 0 dummyWaypoint).pos := by
  have hgen : generate_next_waypoints dLin 20 0 false ⟨0, 0, 0⟩
      [⟨⟨0, 0, 0⟩, 7⟩, ⟨⟨1, 0, 0⟩, 7⟩] 0 1 (-1)
      = some ([⟨⟨0, 0, 0⟩, 1⟩, ⟨⟨1, 0, 0⟩, 7⟩], [0]) := by
    norm_num [generate_next_waypoints, cruiseWalk, updateAt,
      set_waypoint_velocity, KPH_MPS, SAFE_ACCEL]
  have h := C6_amended dLin 20 0 false ⟨0, 0, 0⟩
    [⟨⟨0, 0, 0⟩, 7⟩, ⟨⟨1, 0, 0⟩, 7⟩] 0 1 (-1)
    [⟨⟨0, 0, 0⟩, 1⟩, ⟨⟨1, 0, 0⟩, 7⟩] [0] (by simp) hgen
  exact ⟨h.1 1 (by simp), h.2.1 0⟩

/-- C2: in brake mode over a non-empty path, with a valid stop index and
non-zero current speed (excluding the division-by-zero case settled under
C5), if the lookahead walk first reaches the stop index at step `t`, then
the generator succeeds and the final target speed of the stop-index
waypoint, and of every trajectory waypoint from step `t` on, is exactly 0
(given a non-negative configured speed, so the zero write is not distorted
by the upper clamp). -/
theorem C2_zero_at_and_beyond_stop (d : Point → Point → ℚ) (mv cs : ℚ)
    (pose : Point) (wps : List Waypoint) (ci li : ℕ) (tr : ℤ) (t : ℕ)
    (hn : 0 < wps.length) (hmv : 0 ≤ mv) (hcs : cs ≠ 0) (htr : tr ≠ -1)
    (ht : t < li - ci)
    (hhit : (((ci + t) % wps.length : ℕ) : ℤ) = tr)
    (hmiss : ∀ s, s < t → (((ci + s) % wps.length : ℕ) : ℤ) ≠ tr) :
    ∃ wps2 traj,
      generate_next_waypoints d mv cs true pose wps ci li tr
        = some (wps2, traj) ∧
      (∀ j, t ≤ j → j < li - ci →
        (wps2.getD ((ci + j) % wps.length) dummyWaypoint).vel = 0) ∧
      (wps2.getD ((ci + t) % wps.length) dummyWaypoint).vel = 0 := by
  have hmin0 : min (0 : ℚ) (mv * KPH_MPS) = 0 := by
    apply min_eq_left
    have : (0 : ℚ) ≤ KPH_MPS := by norm_num [KPH_MPS]
    exact mul_nonneg hmv this
  have hzero : ∀ j, t ≤ j → j < li - ci →
      (((brakeWalk d mv
        (wps.getD (tr % (wps.length : ℤ)).toNat dummyWaypoint).pos tr
        (min (d pose (wps.getD (tr % (wps.length : ℤ)).toNat
          dummyWaypoint).pos) (braking_distance mv) / cs)
        cs wps.length (li - ci) ci cs false wps []).1.getD
        ((ci + j) % wps.length) dummyWaypoint).vel) = 0 := by
    intro j htj hj
    have := brakeWalk_reach d mv
      (wps.getD (tr % (wps.length : ℤ)).toNat dummyWaypoint).pos tr
      (min (d pose (wps.getD (tr % (wps.length : ℤ)).toNat
        dummyWaypoint).pos) (braking_distance mv) / cs)
      cs wps.length (li - ci) t ci cs wps [] rfl hn ht hhit hmiss j htj hj
    rwa [hmin0] at this
  refine ⟨(brakeWalk d mv
      (wps.getD (tr % (wps.length : ℤ)).toNat dummyWaypoint).pos tr
      (min (d pose (wps.getD (tr % (wps.length : ℤ)).toNat
        dummyWaypoint).pos) (braking_distance mv) / cs)
      cs wps.length (li - ci) ci cs false wps []).1,
    (brakeWalk d mv
      (wps.getD (tr % (wps.length : ℤ)).toNat dummyWaypoint).pos tr
      (min (d pose (wps.getD (tr % (wps.length : ℤ)).toNat
        dummyWaypoint).pos) (braking_distance mv) / cs)
      cs wps.length (li - ci) ci cs false wps []).2,
    ?_, hzero, hzero t (le_refl t) ht⟩
  unfold generate_next_waypoints
  rw [if_neg (by simp), if_neg htr, if_neg hcs]

/-- C2, witness: max_vel 20, current speed 1, vehicle at the origin, base
path with waypoints at x = 36 and x = 40 (speeds 1), lookahead walk 0..1,
stop index 1 reached at step t = 1: the generator succeeds and the final
speed of the stop waypoint (index 1) is 0. -/
theorem C2_witness :
    ∃ wps2 traj,
      generate_next_waypoints dLin 20 1 true ⟨0, 0, 0⟩
        [⟨⟨36, 0, 0⟩, 1⟩, ⟨⟨40, 0, 0⟩, 1⟩] 0 2 1 = some (wps2, traj) ∧
      (wps2.getD 1 dummyWaypoint).vel = 0 := by
  obtain ⟨wps2, traj, hg, hall, hstop⟩ :=
    C2_zero_at_and_beyond_stop dLin 20 1 ⟨0, 0, 0⟩
      [⟨⟨36, 0, 0⟩, 1⟩, ⟨⟨40, 0, 0⟩, 1⟩] 0 2 1 1
      (by simp) (by norm_num) (by norm_num) (by decide) (by norm_num)
      (by norm_num)
      (by
        intro s hs
        have h0 : s = 0 := by omega
        subst h0
        norm_num)
  refine ⟨wps2, traj, hg, ?_⟩
  have h1 : (0 + 1) % ([⟨⟨36, 0, 0⟩, 1⟩, ⟨⟨40, 0, 0⟩, 1⟩] : List Waypoint).length
      = 1 := by norm_num
  rwa [h1] at hstop

/-- C4, witness for the amended theorem: in the brake run of the
counterexample input, the trajectory waypoint at index 1 keeps a final
speed below the speed limit. -/
theorem C4_witness :
    (([⟨⟨36, 0, 0⟩, -1439⟩, ⟨⟨40, 0, 0⟩, 0⟩] : List Waypoint).getD 1
      dummyWaypoint).vel ≤ 20 * KPH_MPS := by
  have hgen : generate_next_waypoints dLin 20 1 true ⟨0, 0, 0⟩
      [⟨⟨36, 0, 0⟩, 1⟩, ⟨⟨40, 0, 0⟩, 1⟩] 0 2 1
      = some ([⟨⟨36, 0, 0⟩, -1439⟩, ⟨⟨40, 0, 0⟩, 0⟩], [0, 1]) := by
    norm_num [generate_next_waypoints, brakeWalk, updateAt,
      set_waypoint_velocity, braking_distance, stop_distance, creep_speed,
      KPH_MPS, SAFE_ACCEL, dLin]
  exact C4_amended dLin 20 1 true ⟨0, 0, 0⟩
    [⟨⟨36, 0, 0⟩, 1⟩, ⟨⟨40, 0, 0⟩, 1⟩] 0 2 1
    [⟨⟨36, 0, 0⟩, -1439⟩, ⟨⟨40, 0, 0⟩, 0⟩] [0, 1] (by simp) hgen 1 (by simp)
